import Mathlib

/-!
# Verification of the MySQL → SQLite statement translator

A shallow embedding of `src/server/lib/mysqlToSQLiteParser.js`.  Strings are
modelled as `List Char`; each JavaScript regex rule of `functionMappings` is
modelled as a matcher function that reproduces the regex's matching behaviour
(lazy captures that do not cross line terminators, word boundaries,
case-insensitive flags, left-to-right global replacement), and the
surrounding pipeline
(`formatSQL`, `formatCreateTable`, `handleGroupConcat`, the post-processing
clean-up and the `WITH ROLLUP` warning) is translated function by function.
The possible `TypeError` in `formatCreateTable` (`line.match(...)[1]` on a
`null` match result) is modelled by `Option`: a `none` result of the parser
models the thrown exception.
-/

set_option maxRecDepth 4096

abbrev Str := List Char

def lit (s : String) : Str := s.toList

/-- JavaScript `\s`, which is also the class `trim()` strips: the
ECMAScript WhiteSpace characters (tab, line feed, vertical tab, form feed,
carriage return, space, no-break space, Ogham space mark, the en-quad …
hair-space range, narrow no-break space, medium mathematical space,
ideographic space, zero-width no-break space) together with the
LineTerminator characters (line feed, carriage return, line separator,
paragraph separator). -/
def isWsChar (c : Char) : Bool :=
  c = ' ' || c = '\t' || c = '\n' || c = '\r' || c = '\x0b' || c = '\x0c' ||
  c = '\u00A0' || c = '\u1680' ||
  c = '\u2000' || c = '\u2001' || c = '\u2002' || c = '\u2003' ||
  c = '\u2004' || c = '\u2005' || c = '\u2006' || c = '\u2007' ||
  c = '\u2008' || c = '\u2009' || c = '\u200A' ||
  c = '\u2028' || c = '\u2029' || c = '\u202F' ||
  c = '\u205F' || c = '\u3000' || c = '\uFEFF'

/-- The ECMAScript LineTerminator characters: what the regex dot `.` does
not match (line feed, carriage return, line separator, paragraph
separator). -/
def isLineTerm (c : Char) : Bool :=
  c = '\n' || c = '\r' || c = '\u2028' || c = '\u2029'

/-- JavaScript `\d`. -/
def isDigitChar (c : Char) : Bool := '0' ≤ c && c ≤ '9'

/-- JavaScript `\w` = `[A-Za-z0-9_]`. -/
def isWordChar (c : Char) : Bool :=
  ('a' ≤ c && c ≤ 'z') || ('A' ≤ c && c ≤ 'Z') || isDigitChar c || c = '_'

def isUpperChar (c : Char) : Bool := 'A' ≤ c && c ≤ 'Z'

def lowerChar (c : Char) : Char :=
  if isUpperChar c then Char.ofNat (c.toNat + 32) else c

def upperChar (c : Char) : Char :=
  if 'a' ≤ c && c ≤ 'z' then Char.ofNat (c.toNat - 32) else c

def lowerStr (s : Str) : Str := s.map lowerChar

def upperStr (s : Str) : Str := s.map upperChar

/-- `hasPrefixStr p s` : `p` is a prefix of `s` (JS `startsWith`). -/
def hasPrefixStr : Str → Str → Bool
  | [], _ => true
  | _ :: _, [] => false
  | p :: ps, c :: cs => p = c && hasPrefixStr ps cs

/-- JS `endsWith`. -/
def hasSuffixStr (p s : Str) : Bool := hasPrefixStr p.reverse s.reverse

/-- `occursIn pat s` : `pat` occurs as a contiguous substring of `s`
(JS `includes`, also the reachability test of a regex literal). -/
def occursIn (pat : Str) : Str → Bool
  | [] => hasPrefixStr pat []
  | c :: cs => hasPrefixStr pat (c :: cs) || occursIn pat cs

/-- Case-insensitive `startsWith`, for the `/i` regex flags. -/
def ciHasPrefix : Str → Str → Bool
  | [], _ => true
  | _ :: _, [] => false
  | p :: ps, c :: cs => lowerChar p = lowerChar c && ciHasPrefix ps cs

/-- JS `split(sep)` for a single-character separator. -/
def splitOnCharL (sep : Char) : Str → List Str
  | [] => [[]]
  | c :: cs =>
    match splitOnCharL sep cs with
    | [] => [[]]
    | l :: ls => if c = sep then [] :: l :: ls else (c :: l) :: ls

/-- JS `Array.prototype.join(sep)`. -/
def joinSep (sep : Str) : List Str → Str
  | [] => []
  | [x] => x
  | x :: y :: xs => x ++ sep ++ joinSep sep (y :: xs)

def splitLines : Str → List Str := splitOnCharL '\n'

def dropLeadingWs : Str → Str
  | [] => []
  | c :: cs => if isWsChar c then dropLeadingWs cs else c :: cs

/-- JS `trim()`. -/
def jsTrim (s : Str) : Str := (dropLeadingWs (dropLeadingWs s).reverse).reverse

def isSpTab (c : Char) : Bool := c = ' ' || c = '\t'

/-- `.replace(/[ \t]+/g, ' ')`. -/
def collapseWS : Str → Str
  | [] => []
  | [c] => if isSpTab c then [' '] else [c]
  | c :: d :: cs =>
    if isSpTab c then
      if isSpTab d then collapseWS (d :: cs)
      else ' ' :: d :: collapseWS cs
    else c :: collapseWS (d :: cs)

/-- `.replace(/\s+/g, ' ')`. -/
def collapseAllWs : Str → Str
  | [] => []
  | [c] => if isWsChar c then [' '] else [c]
  | c :: d :: cs =>
    if isWsChar c then
      if isWsChar d then collapseAllWs (d :: cs)
      else ' ' :: d :: collapseAllWs cs
    else c :: collapseAllWs (d :: cs)

/-- Helper for `.replace(/\n\s*\n/g, '\n')`: given the text after a `'\n'`,
if the leading whitespace run contains at least one more `'\n'`, return the
number of characters up to and including the last such `'\n'` (the greedy
`\s*` backtracks to the last newline of the run). -/
def blankJumpLen : Str → Option Nat
  | [] => none
  | c :: cs =>
    if c = '\n' then
      match blankJumpLen cs with
      | some r => some (r + 1)
      | none => some 1
    else if isWsChar c then
      match blankJumpLen cs with
      | some r => some (r + 1)
      | none => none
    else none

/-- `.replace(/\n\s*\n/g, '\n')`, written with an explicit skip counter so
that the recursion is structural (the first argument is the number of
already-matched characters still to pass over). -/
def cbGo : Nat → Str → Str
  | _ + 1, [] => []
  | n + 1, _ :: cs => cbGo n cs
  | 0, [] => []
  | 0, c :: cs =>
    if c = '\n' then
      match blankJumpLen cs with
      | some k => '\n' :: cbGo k cs
      | none => '\n' :: cbGo 0 cs
    else c :: cbGo 0 cs

def collapseBlank (s : Str) : Str := cbGo 0 s

/-- A rewrite rule of the table: given the character before the current
position (for `\b`) and the current suffix, an attempted match returns the
number of consumed characters (≥ 1 for every rule below) and the
replacement text. -/
abbrev RMatcher := Option Char → Str → Option (Nat × Str)

/-- Global regex replacement (`String.prototype.replace` with `/g`):
left-to-right scan over the original text, non-overlapping matches, the
scan resumes after the matched text.  The `Nat` argument counts the
characters of the current match still to pass over, which keeps the
recursion structural; the `Option Char` argument is the previous character
of the original text (for `\b`). -/
def runRepl (m : RMatcher) : Nat → Option Char → Str → Str
  | _ + 1, _, [] => []
  | n + 1, _, c :: cs => runRepl m n (some c) cs
  | 0, _, [] => []
  | 0, prev, c :: cs =>
    match m prev (c :: cs) with
    | some (k, repl) =>
      if k = 0 then c :: runRepl m 0 (some c) cs
      else repl ++ runRepl m (k - 1) (some c) cs
    | none => c :: runRepl m 0 (some c) cs

def applyRule (m : RMatcher) (s : Str) : Str := runRepl m 0 none s

/-- `\b` at the start of a match whose first character is a word
character: the previous character must not be a word character. -/
def notWordB (prev : Option Char) : Bool :=
  match prev with
  | none => true
  | some c => !isWordChar c

/-- `\b` after the end of a match whose last character is a word character:
the next character must not be a word character. -/
def wordEndB (r : Str) : Bool :=
  match r with
  | [] => true
  | c :: _ => !isWordChar c

/-- Lazy single capture `(.*?)stop`: the dot does not match a line
terminator, the capture stops at the first occurrence of `stop`.  Returns
the capture and the rest after `stop`. -/
def lazyTill (stop : Char) : Str → Option (Str × Str)
  | [] => none
  | c :: cs =>
    if c = stop then some ([], cs)
    else if isLineTerm c then none
    else
      match lazyTill stop cs with
      | some (a, r) => some (c :: a, r)
      | none => none

/-- Lazy double capture `(.*?),(.*?)\)`: the first capture extends to the
first comma from which the remainder still contains a `')'` on the same
line (regex backtracking), the second stops at the first `')'`. -/
def lazyPair : Str → Option (Str × Str × Str)
  | [] => none
  | c :: cs =>
    if c = ',' then
      match lazyTill ')' cs with
      | some (b, r) => some ([], b, r)
      | none =>
        match lazyPair cs with
        | some (a, b, r) => some (',' :: a, b, r)
        | none => none
    else if isLineTerm c then none
    else
      match lazyPair cs with
      | some (a, b, r) => some (c :: a, b, r)
      | none => none

/-- Lazy triple capture `(.*?),(.*?),(.*?)\)`. -/
def lazyTriple : Str → Option (Str × Str × Str × Str)
  | [] => none
  | ch :: cs =>
    if ch = ',' then
      match lazyPair cs with
      | some (b, c, r) => some ([], b, c, r)
      | none =>
        match lazyTriple cs with
        | some (a, b, c, r) => some (',' :: a, b, c, r)
        | none => none
    else if isLineTerm ch then none
    else
      match lazyTriple cs with
      | some (a, b, c, r) => some (ch :: a, b, c, r)
      | none => none

/-! ## The rule table (`functionMappings`), one matcher per source rule -/

/-- `{ regex: /CONCAT\((.*?)\)/g, replacement: (match, args) =>
args.split(',').join(' || ') }` -/
def ruleConcat : RMatcher := fun _ s =>
  if hasPrefixStr (lit "CONCAT(") s then
    match lazyTill ')' (s.drop 7) with
    | some (args, _) =>
      some (7 + args.length + 1, joinSep (lit " || ") (splitOnCharL ',' args))
    | none => none
  else none

/-- `{ regex: /SUBSTRING\((.*?)\)/g, replacement: 'substr($1)' }` -/
def ruleSubstring : RMatcher := fun _ s =>
  if hasPrefixStr (lit "SUBSTRING(") s then
    match lazyTill ')' (s.drop 10) with
    | some (a, _) => some (10 + a.length + 1, lit "substr(" ++ a ++ lit ")")
    | none => none
  else none

def altParen (alts : List Str) (s : Str) : Option Str :=
  match alts with
  | [] => none
  | w :: ws => if hasPrefixStr (w ++ lit "(") s then some w else altParen ws s

/-- `{ regex: /\b(LENGTH|UPPER|LOWER|TRIM|LTRIM|RTRIM|REPLACE)\(/g,
replacement: '$1(' }` (replaces each match with itself). -/
def ruleStringFns : RMatcher := fun prev s =>
  if notWordB prev then
    match altParen [lit "LENGTH", lit "UPPER", lit "LOWER", lit "TRIM",
        lit "LTRIM", lit "RTRIM", lit "REPLACE"] s with
    | some w => some (w.length + 1, w ++ lit "(")
    | none => none
  else none

/-- The tail `\s*INTERVAL\s*(\d+)\s*DAY\)` of the date-arithmetic rules,
matched right after a comma; returns the digit capture and the length. -/
def intervalTail (s : Str) : Option (Str × Nat) :=
  let p1 := s.span isWsChar
  if hasPrefixStr (lit "INTERVAL") p1.2 then
    let p2 := (p1.2.drop 8).span isWsChar
    let p3 := p2.2.span isDigitChar
    if p3.1 ≠ [] then
      let p4 := p3.2.span isWsChar
      if hasPrefixStr (lit "DAY)") p4.2 then
        some (p3.1, p1.1.length + 8 + p2.1.length + p3.1.length + p4.1.length + 4)
      else none
    else none
  else none

/-- `(.*?),\s*INTERVAL\s*(\d+)\s*DAY\)` : lazy first capture followed by the
interval tail; returns (capture, digits, consumed length). -/
def lazyIntervalArg : Str → Option (Str × Str × Nat)
  | [] => none
  | c :: cs =>
    if c = ',' then
      match intervalTail cs with
      | some (ds, k) => some ([], ds, 1 + k)
      | none =>
        match lazyIntervalArg cs with
        | some (a, ds, k) => some (',' :: a, ds, 1 + k)
        | none => none
    else if isLineTerm c then none
    else
      match lazyIntervalArg cs with
      | some (a, ds, k) => some (c :: a, ds, 1 + k)
      | none => none

/-- `{ regex: /DATE_ADD\((.*?),\s*INTERVAL\s*(\d+)\s*DAY\)/g,
replacement: 'DATETIME($1, \'+$2 DAY\')' }` -/
def ruleDateAdd : RMatcher := fun _ s =>
  if hasPrefixStr (lit "DATE_ADD(") s then
    match lazyIntervalArg (s.drop 9) with
    | some (a, ds, k) =>
      some (9 + k, lit "DATETIME(" ++ a ++ lit ", '+" ++ ds ++ lit " DAY')")
    | none => none
  else none

/-- `{ regex: /DATE_SUB\((.*?),\s*INTERVAL\s*(\d+)\s*DAY\)/g,
replacement: 'DATETIME($1, \'-$2 DAY\')' }` -/
def ruleDateSub : RMatcher := fun _ s =>
  if hasPrefixStr (lit "DATE_SUB(") s then
    match lazyIntervalArg (s.drop 9) with
    | some (a, ds, k) =>
      some (9 + k, lit "DATETIME(" ++ a ++ lit ", '-" ++ ds ++ lit " DAY')")
    | none => none
  else none

/-- `{ regex: /DATEDIFF\((.*?),(.*?)\)/g,
replacement: 'CAST((JULIANDAY($1) - JULIANDAY($2)) AS INTEGER)' }` -/
def ruleDateDiff : RMatcher := fun _ s =>
  if hasPrefixStr (lit "DATEDIFF(") s then
    match lazyPair (s.drop 9) with
    | some (a, b, _) =>
      some (9 + a.length + 1 + b.length + 1,
        lit "CAST((JULIANDAY(" ++ a ++ lit ") - JULIANDAY(" ++ b ++ lit ")) AS INTEGER)")
    | none => none
  else none

/-- `{ regex: /YEAR\((.*?)\)/g,
replacement: 'CAST(strftime(\'%Y\', $1) AS INTEGER)' }` -/
def ruleYear : RMatcher := fun _ s =>
  if hasPrefixStr (lit "YEAR(") s then
    match lazyTill ')' (s.drop 5) with
    | some (a, _) =>
      some (5 + a.length + 1, lit "CAST(strftime('%Y', " ++ a ++ lit ") AS INTEGER)")
    | none => none
  else none

/-- `{ regex: /MONTH\((.*?)\)/g,
replacement: 'CAST(strftime(\'%m\', $1) AS INTEGER)' }` -/
def ruleMonth : RMatcher := fun _ s =>
  if hasPrefixStr (lit "MONTH(") s then
    match lazyTill ')' (s.drop 6) with
    | some (a, _) =>
      some (6 + a.length + 1, lit "CAST(strftime('%m', " ++ a ++ lit ") AS INTEGER)")
    | none => none
  else none

/-- `{ regex: /DAY\((.*?)\)/g,
replacement: 'CAST(strftime(\'%d\', $1) AS INTEGER)' }` -/
def ruleDay : RMatcher := fun _ s =>
  if hasPrefixStr (lit "DAY(") s then
    match lazyTill ')' (s.drop 4) with
    | some (a, _) =>
      some (4 + a.length + 1, lit "CAST(strftime('%d', " ++ a ++ lit ") AS INTEGER)")
    | none => none
  else none

/-- `{ regex: /NOW\(\)/g, replacement: 'DATETIME(\'now\')' }` -/
def ruleNow : RMatcher := fun _ s =>
  if hasPrefixStr (lit "NOW()") s then some (5, lit "DATETIME('now')") else none

/-- `{ regex: /CEIL\((.*?)\)/g,
replacement: 'CAST(ROUND($1 + 0.5) AS INTEGER)' }` -/
def ruleCeil : RMatcher := fun _ s =>
  if hasPrefixStr (lit "CEIL(") s then
    match lazyTill ')' (s.drop 5) with
    | some (a, _) =>
      some (5 + a.length + 1, lit "CAST(ROUND(" ++ a ++ lit " + 0.5) AS INTEGER)")
    | none => none
  else none

/-- `{ regex: /FLOOR\((.*?)\)/g, replacement: 'CAST($1 AS INTEGER)' }` -/
def ruleFloor : RMatcher := fun _ s =>
  if hasPrefixStr (lit "FLOOR(") s then
    match lazyTill ')' (s.drop 6) with
    | some (a, _) => some (6 + a.length + 1, lit "CAST(" ++ a ++ lit " AS INTEGER)")
    | none => none
  else none

/-- `{ regex: /\b(POW|ABS|SQRT)\(/g, replacement: '$1(' }` -/
def ruleMathFns : RMatcher := fun prev s =>
  if notWordB prev then
    match altParen [lit "POW", lit "ABS", lit "SQRT"] s with
    | some w => some (w.length + 1, w ++ lit "(")
    | none => none
  else none

/-- `{ regex: /MOD\((.*?),(.*?)\)/g, replacement: '($1 % $2)' }` -/
def ruleMod : RMatcher := fun _ s =>
  if hasPrefixStr (lit "MOD(") s then
    match lazyPair (s.drop 4) with
    | some (a, b, _) =>
      some (4 + a.length + 1 + b.length + 1, lit "(" ++ a ++ lit " % " ++ b ++ lit ")")
    | none => none
  else none

/-- `{ regex: /\bRAND\(\)/g,
replacement: '(ABS(RANDOM()) % 1000000 + 1) / 1000000.0' }` -/
def ruleRand : RMatcher := fun prev s =>
  if notWordB prev && hasPrefixStr (lit "RAND()") s then
    some (6, lit "(ABS(RANDOM()) % 1000000 + 1) / 1000000.0")
  else none

/-- `{ regex: /IFNULL\((.*?),(.*?)\)/g, replacement: 'COALESCE($1, $2)' }` -/
def ruleIfnull : RMatcher := fun _ s =>
  if hasPrefixStr (lit "IFNULL(") s then
    match lazyPair (s.drop 7) with
    | some (a, b, _) =>
      some (7 + a.length + 1 + b.length + 1, lit "COALESCE(" ++ a ++ lit ", " ++ b ++ lit ")")
    | none => none
  else none

/-- `{ regex: /IF\((.*?),(.*?),(.*?)\)/g,
replacement: 'CASE WHEN $1 THEN $2 ELSE $3 END' }` -/
def ruleIf : RMatcher := fun _ s =>
  if hasPrefixStr (lit "IF(") s then
    match lazyTriple (s.drop 3) with
    | some (a, b, c, _) =>
      some (3 + a.length + 1 + b.length + 1 + c.length + 1,
        lit "CASE WHEN " ++ a ++ lit " THEN " ++ b ++ lit " ELSE " ++ c ++ lit " END")
    | none => none
  else none

/-- `{ regex: /NULLIF\((.*?),(.*?)\)/g,
replacement: 'CASE WHEN $1 = $2 THEN NULL ELSE $1 END' }` -/
def ruleNullif : RMatcher := fun _ s =>
  if hasPrefixStr (lit "NULLIF(") s then
    match lazyPair (s.drop 7) with
    | some (a, b, _) =>
      some (7 + a.length + 1 + b.length + 1,
        lit "CASE WHEN " ++ a ++ lit " = " ++ b ++ lit " THEN NULL ELSE " ++ a ++ lit " END")
    | none => none
  else none

/-- The `(?:TINY|SMALL|MEDIUM|BIG)?INT\(` head of the integer-type rule:
consumed length of the accepted alternative (alternatives tried in source
order, then the empty option). -/
def intTypeAlt (s : Str) : Option Nat :=
  if hasPrefixStr (lit "TINYINT(") s then some 8
  else if hasPrefixStr (lit "SMALLINT(") s then some 9
  else if hasPrefixStr (lit "MEDIUMINT(") s then some 10
  else if hasPrefixStr (lit "BIGINT(") s then some 7
  else if hasPrefixStr (lit "INT(") s then some 4
  else none

/-- `{ regex: /\b(?:TINY|SMALL|MEDIUM|BIG)?INT\(\d+\)/g,
replacement: 'INTEGER' }` -/
def ruleIntTypes : RMatcher := fun prev s =>
  if notWordB prev then
    match intTypeAlt s with
    | some k =>
      let p := (s.drop k).span isDigitChar
      if p.1 ≠ [] && hasPrefixStr (lit ")") p.2 then
        some (k + p.1.length + 1, lit "INTEGER")
      else none
    | none => none
  else none

/-- `{ regex: /\b(?:VAR)?CHAR\(\d+\)|TEXT\(\d+\)/g, replacement: 'TEXT' }` —
note that only the first alternative carries the `\b`. -/
def ruleCharText : RMatcher := fun prev s =>
  let alt1 :=
    if notWordB prev then
      match (if hasPrefixStr (lit "VARCHAR(") s then some 8
             else if hasPrefixStr (lit "CHAR(") s then some 5 else none) with
      | some k =>
        let p := (s.drop k).span isDigitChar
        if p.1 ≠ [] && hasPrefixStr (lit ")") p.2 then
          some (k + p.1.length + 1, lit "TEXT")
        else none
      | none => none
    else none
  match alt1 with
  | some x => some x
  | none =>
    if hasPrefixStr (lit "TEXT(") s then
      let p := (s.drop 5).span isDigitChar
      if p.1 ≠ [] && hasPrefixStr (lit ")") p.2 then
        some (5 + p.1.length + 1, lit "TEXT")
      else none
    else none

/-- `{ regex: /\b(?:DECIMAL|FLOAT|DOUBLE)\(\d+,\d+\)/g, replacement: 'REAL' }` -/
def ruleDecimalTypes : RMatcher := fun prev s =>
  if notWordB prev then
    match (if hasPrefixStr (lit "DECIMAL(") s then some 8
           else if hasPrefixStr (lit "FLOAT(") s then some 6
           else if hasPrefixStr (lit "DOUBLE(") s then some 7 else none) with
    | some k =>
      let p := (s.drop k).span isDigitChar
      if p.1 ≠ [] && hasPrefixStr (lit ",") p.2 then
        let q := (p.2.drop 1).span isDigitChar
        if q.1 ≠ [] && hasPrefixStr (lit ")") q.2 then
          some (k + p.1.length + 1 + q.1.length + 1, lit "REAL")
        else none
      else none
    | none => none
  else none

/-- `{ regex: /\bTIMESTAMP\b/g, replacement: 'DATETIME' }` -/
def ruleTimestamp : RMatcher := fun prev s =>
  if notWordB prev && hasPrefixStr (lit "TIMESTAMP") s && wordEndB (s.drop 9) then
    some (9, lit "DATETIME")
  else none

/-- `{ regex: /\bBINARY\b/g, replacement: 'BLOB' }` -/
def ruleBinary : RMatcher := fun prev s =>
  if notWordB prev && hasPrefixStr (lit "BINARY") s && wordEndB (s.drop 6) then
    some (6, lit "BLOB")
  else none

def joinKw (s : Str) : Option Nat :=
  if hasPrefixStr (lit "LEFT") s then some 4
  else if hasPrefixStr (lit "RIGHT") s then some 5
  else if hasPrefixStr (lit "FULL") s then some 4
  else none

/-- `{ regex: /\b(?:LEFT|RIGHT|FULL)\s+(?:OUTER\s+)?JOIN\b/g,
replacement: 'LEFT JOIN' }` -/
def ruleOuterJoin : RMatcher := fun prev s =>
  if notWordB prev then
    match joinKw s with
    | some k =>
      let p := (s.drop k).span isWsChar
      if p.1 = [] then none
      else
        let withOuter :=
          if hasPrefixStr (lit "OUTER") p.2 then
            let q := (p.2.drop 5).span isWsChar
            if q.1 ≠ [] && hasPrefixStr (lit "JOIN") q.2 && wordEndB (q.2.drop 4) then
              some (k + p.1.length + 5 + q.1.length + 4)
            else none
          else none
        match withOuter with
        | some n => some (n, lit "LEFT JOIN")
        | none =>
          if hasPrefixStr (lit "JOIN") p.2 && wordEndB (p.2.drop 4) then
            some (k + p.1.length + 4, lit "LEFT JOIN")
          else none
    | none => none
  else none

/-- `{ regex: /\bINNER\s+JOIN\b|\bJOIN\b/g, replacement: 'INNER JOIN' }` -/
def ruleInnerJoin : RMatcher := fun prev s =>
  let alt1 :=
    if notWordB prev && hasPrefixStr (lit "INNER") s then
      let p := (s.drop 5).span isWsChar
      if p.1 ≠ [] && hasPrefixStr (lit "JOIN") p.2 && wordEndB (p.2.drop 4) then
        some (5 + p.1.length + 4, lit "INNER JOIN")
      else none
    else none
  match alt1 with
  | some x => some x
  | none =>
    if notWordB prev && hasPrefixStr (lit "JOIN") s && wordEndB (s.drop 4) then
      some (4, lit "INNER JOIN")
    else none

/-- `{ regex: /AUTO_?INCREMENT(?:\s+PRIMARY\s+KEY|)/gi,
replacement: 'PRIMARY KEY AUTOINCREMENT' }` -/
def ruleAutoInc1 : RMatcher := fun _ s =>
  match (if ciHasPrefix (lit "AUTO_INCREMENT") s then some 14
         else if ciHasPrefix (lit "AUTOINCREMENT") s then some 13 else none) with
  | some k =>
    let p := (s.drop k).span isWsChar
    let withPk :=
      if p.1 ≠ [] && ciHasPrefix (lit "PRIMARY") p.2 then
        let q := (p.2.drop 7).span isWsChar
        if q.1 ≠ [] && ciHasPrefix (lit "KEY") q.2 then
          some (k + p.1.length + 7 + q.1.length + 3)
        else none
      else none
    match withPk with
    | some n => some (n, lit "PRIMARY KEY AUTOINCREMENT")
    | none => some (k, lit "PRIMARY KEY AUTOINCREMENT")
  | none => none

/-- `{ regex: /PRIMARY\s+KEY\s+AUTO_?INCREMENT/gi,
replacement: 'PRIMARY KEY AUTOINCREMENT' }` -/
def ruleAutoInc2 : RMatcher := fun _ s =>
  if ciHasPrefix (lit "PRIMARY") s then
    let p := (s.drop 7).span isWsChar
    if p.1 ≠ [] && ciHasPrefix (lit "KEY") p.2 then
      let q := (p.2.drop 3).span isWsChar
      if q.1 ≠ [] then
        if ciHasPrefix (lit "AUTO_INCREMENT") q.2 then
          some (7 + p.1.length + 3 + q.1.length + 14, lit "PRIMARY KEY AUTOINCREMENT")
        else if ciHasPrefix (lit "AUTOINCREMENT") q.2 then
          some (7 + p.1.length + 3 + q.1.length + 13, lit "PRIMARY KEY AUTOINCREMENT")
        else none
      else none
    else none
  else none

/-- The ordered rule table. -/
def functionMappings : List RMatcher :=
  [ruleConcat, ruleSubstring, ruleStringFns,
   ruleDateAdd, ruleDateSub, ruleDateDiff, ruleYear, ruleMonth, ruleDay, ruleNow,
   ruleCeil, ruleFloor, ruleMathFns, ruleMod, ruleRand,
   ruleIfnull, ruleIf, ruleNullif,
   ruleIntTypes, ruleCharText, ruleDecimalTypes, ruleTimestamp, ruleBinary,
   ruleOuterJoin, ruleInnerJoin,
   ruleAutoInc1, ruleAutoInc2]

/-- `functionMappings.forEach(({ regex, replacement }) => { sqliteQuery =
sqliteQuery.replace(regex, replacement); })` -/
def applyMappings (s : Str) : Str :=
  functionMappings.foldl (fun acc m => applyRule m acc) s

/-! ## Post-processing, `handleGroupConcat`, the two formatters, and the
top-level `mysqlToSQLiteParser` -/

/-- `.replace(/ENGINE=\w+|DEFAULT CHARSET=\w+|COLLATE=\w+/g, '')` -/
def ruleEngineStrip : RMatcher := fun _ s =>
  let tryAlt (w : Str) : Option Nat :=
    if hasPrefixStr w s then
      let p := (s.drop w.length).span isWordChar
      if p.1 ≠ [] then some (w.length + p.1.length) else none
    else none
  match tryAlt (lit "ENGINE=") with
  | some k => some (k, [])
  | none =>
    match tryAlt (lit "DEFAULT CHARSET=") with
    | some k => some (k, [])
    | none =>
      match tryAlt (lit "COLLATE=") with
      | some k => some (k, [])
      | none => none

/-- The post-processing chain: strip engine/charset/collation clauses,
collapse horizontal whitespace, collapse blank lines, trim. -/
def postCleanup (s : Str) : Str :=
  jsTrim (collapseBlank (collapseWS (applyRule ruleEngineStrip s)))

/-- First rewrite of `handleGroupConcat`:
`sql.replace(/GROUP_CONCAT\((DISTINCT\s+)?([^)]+)\)/gi, (match, distinct,
args) => ...)`.  The replacement rebuilds
`GROUP_CONCAT(${distinct}${args})`; since the two captures cover the whole
matched argument text, the interior is re-emitted verbatim (in particular
the boundary between the optional `DISTINCT\s+` capture and the greedy
`[^)]+` capture does not affect the result), only the `GROUP_CONCAT(`
spelling of a case-insensitive match is rewritten in upper case. -/
def gcMatcher1 : RMatcher := fun _ s =>
  if ciHasPrefix (lit "GROUP_CONCAT(") s then
    let r := s.drop 13
    let withD :=
      if ciHasPrefix (lit "DISTINCT") r then
        let p := (r.drop 8).span isWsChar
        if p.1 ≠ [] then
          let q := p.2.span (fun c => c ≠ ')')
          if q.1 ≠ [] && hasPrefixStr (lit ")") q.2 then
            some (13 + 8 + p.1.length + q.1.length + 1, r.take (8 + p.1.length) ++ q.1)
          else none
        else none
      else none
    match withD with
    | some (n, interior) => some (n, lit "GROUP_CONCAT(" ++ interior ++ lit ")")
    | none =>
      let q := r.span (fun c => c ≠ ')')
      if q.1 ≠ [] && hasPrefixStr (lit ")") q.2 then
        some (13 + q.1.length + 1, lit "GROUP_CONCAT(" ++ q.1 ++ lit ")")
      else none
  else none

/-- Second rewrite of `handleGroupConcat`:
`sql.replace(/GROUP_CONCAT\(([^)]+\.[^)]+)\)/gi, 'GROUP_CONCAT($1)')`.
The capture `[^)]+\.[^)]+` is the full non-`)` run provided it contains a
dot that is neither its first nor its last character. -/
def gcMatcher2 : RMatcher := fun _ s =>
  if ciHasPrefix (lit "GROUP_CONCAT(") s then
    let q := (s.drop 13).span (fun c => c ≠ ')')
    if q.1 ≠ [] && occursIn (lit ".") (q.1.drop 1).dropLast
        && hasPrefixStr (lit ")") q.2 then
      some (13 + q.1.length + 1, lit "GROUP_CONCAT(" ++ q.1 ++ lit ")")
    else none
  else none

/-- `handleGroupConcat`. -/
def handleGroupConcat (sql : Str) : Str :=
  applyRule gcMatcher2 (applyRule gcMatcher1 sql)

/-- The clause keywords that reset the indentation level in `formatSQL`. -/
def isMajorClause (u : Str) : Bool :=
  hasPrefixStr (lit "FROM") u || hasPrefixStr (lit "WHERE") u ||
  hasPrefixStr (lit "GROUP BY") u || hasPrefixStr (lit "HAVING") u ||
  hasPrefixStr (lit "ORDER BY") u || hasPrefixStr (lit "LIMIT") u

/-- `'    '.repeat(Math.max(0, indentLevel))`. -/
def indentOf (n : Nat) : Str := (List.replicate n (lit "    ")).flatten

/-- The line loop of `formatSQL`. -/
def formatSQLLoop : Nat → List Str → List Str
  | _, [] => []
  | level, l :: ls =>
    let level1 := if isMajorClause (upperStr l) then 0 else level
    let out := indentOf level1 ++ l
    let level2 := if hasPrefixStr (lit "SELECT") (upperStr l) then 1 else level1
    out :: formatSQLLoop level2 ls

/-- `formatSQL`. -/
def formatSQL (sql : Str) : Str :=
  if !occursIn (lit "\n") sql && !occursIn (lit "case when") (lowerStr sql)
      && !occursIn (lit "group by") (lowerStr sql) then
    jsTrim (collapseAllWs sql)
  else
    joinSep (lit "\n")
      (formatSQLLoop 0 (((splitLines sql).map jsTrim).filter (fun l => l ≠ [])))

/-- The scan of `line.match(/CREATE TABLE\s+(\w+)/)`: first position where
the literal is followed by at least one whitespace and at least one word
character; returns the greedy `\w+` capture. -/
def findCreateTableName : Str → Option Str
  | [] => none
  | c :: cs =>
    let here :=
      if hasPrefixStr (lit "CREATE TABLE") (c :: cs) then
        let p := ((c :: cs).drop 12).span isWsChar
        if p.1 ≠ [] then
          let q := p.2.span isWordChar
          if q.1 ≠ [] then some q.1 else none
        else none
      else none
    match here with
    | some nm => some nm
    | none => findCreateTableName cs

/-- `line.replace(/,\s*$/, '')`: a trailing comma (possibly followed by
trailing whitespace) is removed together with that whitespace. -/
def stripTrailingComma (l : Str) : Str :=
  if hasPrefixStr (lit ",") (l.reverse.dropWhile isWsChar) then
    ((l.reverse.dropWhile isWsChar).drop 1).reverse
  else l

def idxOfStr (l : Str) : List Str → Option Nat
  | [] => none
  | x :: xs => if x = l then some 0 else (idxOfStr l xs).map (· + 1)

/-- `lines.slice(lines.indexOf(line) + 1)` (JS `indexOf` returns `-1` when
absent, making the slice the whole list). -/
def jsSliceAfter (l : Str) (lines : List Str) : List Str :=
  match idxOfStr l lines with
  | some i => lines.drop (i + 1)
  | none => lines

/-- `!lines.slice(lines.indexOf(line) + 1).some(l => !l.startsWith(')'))`. -/
def isLastColumn (lines : List Str) (l : Str) : Bool :=
  !((jsSliceAfter l lines).any (fun x => !hasPrefixStr (lit ")") x))

/-- The line loop of `formatCreateTable`; `none` models the `TypeError`
thrown by `line.match(/CREATE TABLE\s+(\w+)/)[1]` when the match is `null`. -/
def fctLoop (lines : List Str) : Bool → List Str → Option (List Str)
  | _, [] => some []
  | inCols, l :: ls =>
    if hasPrefixStr (lit "CREATE TABLE") l then
      match findCreateTableName l with
      | some nm =>
        (fctLoop lines true ls).map (fun r => (lit "CREATE TABLE " ++ nm ++ lit " (") :: r)
      | none => none
    else if hasSuffixStr (lit ");") l || l = lit ");" || l = lit ")" then
      (fctLoop lines false ls).map (fun r => lit "    );" :: r)
    else if inCols then
      let col := stripTrailingComma l ++ (if isLastColumn lines l then [] else lit ",")
      (fctLoop lines inCols ls).map (fun r => (lit "    " ++ col) :: r)
    else
      (fctLoop lines inCols ls).map (fun r => l :: r)

/-- `formatCreateTable`. -/
def formatCreateTable (sql : Str) : Option Str :=
  let lines := ((splitLines sql).map jsTrim).filter (fun l => l ≠ [])
  (fctLoop lines false lines).map (joinSep (lit "\n"))

def wrLit : Str := lit "WITH ROLLUP"

def rollupMarker : Str := lit "/* WITH ROLLUP not supported */"

/-- `.replace(/WITH ROLLUP/g, "/* WITH ROLLUP not supported */")`, with a
structural skip counter as in `runRepl`. -/
def rrGo : Nat → Str → Str
  | _ + 1, [] => []
  | n + 1, _ :: cs => rrGo n cs
  | 0, [] => []
  | 0, c :: cs =>
    if hasPrefixStr wrLit (c :: cs) then rollupMarker ++ rrGo 10 cs
    else c :: rrGo 0 cs

def replaceRollup (s : Str) : Str := rrGo 0 s

/-- The final warning step: if the formatted statement still contains
`WITH ROLLUP`, replace every occurrence with the marker comment. -/
def rollupStep (s : Str) : Str :=
  if occursIn wrLit s then replaceRollup s else s

/-- Everything of `mysqlToSQLiteParser` before the rollup warning: rule
table, post-processing, and the shape-dispatched formatter. -/
def formattedStage (q : Str) : Option Str :=
  let s := postCleanup (applyMappings q)
  if hasPrefixStr (lit "create table") (lowerStr s) then formatCreateTable s
  else if occursIn (lit "group_concat") (lowerStr s) then some (handleGroupConcat s)
  else some (formatSQL s)

/-- The translator.  A `none` result models the `TypeError` thrown inside
`formatCreateTable`. -/
def mysqlToSQLiteParser (q : Str) : Option Str :=
  (formattedStage q).map rollupStep

/-! ## Definitions used to state the claims -/

/-- Formalisation of the spec's precondition "contains no further mapped
source-dialect constructs": none of the source-dialect (MySQL) texts that
the rule table maps occurs in the statement.  The function-call and
type-name triggers are case-sensitive exactly as the rules are; the
auto-increment keyword is case-insensitive and uses the source dialect's
`AUTO_INCREMENT` spelling (`AUTOINCREMENT` without the underscore is the
target dialect's keyword, not a source construct). -/
def noMappedSourceConstructs (s : Str) : Bool :=
  !occursIn (lit "CONCAT(") s && !occursIn (lit "SUBSTRING(") s &&
  !occursIn (lit "DATE_ADD(") s && !occursIn (lit "DATE_SUB(") s &&
  !occursIn (lit "DATEDIFF(") s &&
  !occursIn (lit "YEAR(") s && !occursIn (lit "MONTH(") s && !occursIn (lit "DAY(") s &&
  !occursIn (lit "NOW()") s && !occursIn (lit "CEIL(") s && !occursIn (lit "FLOOR(") s &&
  !occursIn (lit "MOD(") s && !occursIn (lit "RAND()") s &&
  !occursIn (lit "IFNULL(") s && !occursIn (lit "IF(") s && !occursIn (lit "NULLIF(") s &&
  !occursIn (lit "INT(") s && !occursIn (lit "CHAR(") s && !occursIn (lit "TEXT(") s &&
  !occursIn (lit "DECIMAL(") s && !occursIn (lit "FLOAT(") s && !occursIn (lit "DOUBLE(") s &&
  !occursIn (lit "TIMESTAMP") s && !occursIn (lit "BINARY") s &&
  !occursIn (lit "JOIN") s &&
  !occursIn (lit "auto_increment") (lowerStr s) &&
  !occursIn (lit "ENGINE=") s && !occursIn (lit "DEFAULT CHARSET=") s &&
  !occursIn (lit "COLLATE=") s &&
  !occursIn wrLit s

/-- No trigger text of any rule of the rewrite stage (the 27 rules of
`functionMappings` and the engine/charset/collation strip) occurs in the
statement; on such a statement the whole rewrite stage is the identity. -/
def rulesQuiet (s : Str) : Bool :=
  noMappedSourceConstructs s &&
  !occursIn (lit "autoincrement") (lowerStr s)

/-- A single-line statement in whitespace-normal form that contains no
trigger text of any rewrite rule (also not the target's `AUTOINCREMENT`
keyword, which the first auto-increment rule re-matches) and none of the
formatter dispatch keywords.  On such statements every stage of the
pipeline acts as the identity. -/
def plainSafe (s : Str) : Bool :=
  rulesQuiet s &&
  decide (collapseWS s = s) && decide (collapseBlank s = s) &&
  decide (jsTrim s = s) && decide (collapseAllWs s = s) &&
  !occursIn (lit "\n") s &&
  !hasPrefixStr (lit "create table") (lowerStr s) &&
  !occursIn (lit "group_concat") (lowerStr s) &&
  !occursIn (lit "case when") (lowerStr s) &&
  !occursIn (lit "group by") (lowerStr s)

/-- The chunks of a statement between the (left-to-right, non-overlapping)
occurrences of `WITH ROLLUP`, mirroring the scan of `replaceRollup`:
`replaceRollup` emits exactly these chunks joined by the marker comment. -/
def wcGo : Nat → Str → List Str
  | _ + 1, [] => [[]]
  | n + 1, _ :: cs => wcGo n cs
  | 0, [] => [[]]
  | 0, c :: cs =>
    if hasPrefixStr wrLit (c :: cs) then [] :: wcGo 10 cs
    else
      match wcGo 0 cs with
      | [] => [[c]]
      | l :: ls => (c :: l) :: ls

def wrChunks (s : Str) : List Str := wcGo 0 s

/-- Characters allowed in the column lines of the table-creation statements
of the amended claim C8: lower-case letters, digits and blanks — text that
no rewrite rule and no dispatch keyword can match. -/
def colChar (c : Char) : Bool :=
  ('a' ≤ c && c ≤ 'z') || isDigitChar c || c = ' '

/-- A well-formed multi-line table-creation statement: header line with an
upper-case `CREATE TABLE` and a table name, one column line per entry of
`cols` (a trailing comma on every line but the last, as the formatter's
contract expects), and a closing `);` line. -/
def withCommas : List Str → List Str
  | [] => []
  | [c] => [c]
  | c :: cs => (c ++ lit ",") :: withCommas cs

def mkCreateInput (name : Str) (cols : List Str) : Str :=
  lit "CREATE TABLE " ++ name ++ lit " (\n" ++
    joinSep (lit "\n") (withCommas cols) ++ lit "\n);"

/-- The output shape claimed by C8: the normalised header, each column on
its own four-space-indented line with a trailing comma on all but the last,
and the indented `);` line. -/
def mkCreateOutput (name : Str) (cols : List Str) : Str :=
  lit "CREATE TABLE " ++ name ++ lit " (\n" ++
    joinSep (lit "\n") ((withCommas cols).map (fun l => lit "    " ++ l)) ++
    lit "\n    );"

/-! ## Theorems -/

/-- C1: the spec claims `translate` never raises on any input and in
particular that the `CREATE TABLE` formatting path terminates normally for
every statement whose lowercased text starts with `create table`.  The code
contradicts this: for a table-creation statement without a table name
(`CREATE TABLE (id INTEGER);`), `formatCreateTable` evaluates
`line.match(/CREATE TABLE\s+(\w+)/)[1]` with a `null` match result and
throws a `TypeError`, modelled here by the `none` result. -/
theorem claimC1_create_table_crash :
    mysqlToSQLiteParser (lit "CREATE TABLE (id INTEGER);") = none := by decide

/-- C3: the spec claims that `AUTO_INCREMENT PRIMARY KEY` and
`PRIMARY KEY AUTO_INCREMENT` translate to identical output.  They do not:
the first auto-increment rule already matches the bare `AUTO_INCREMENT` of
the second spelling and inserts an extra `PRIMARY KEY`, so the two
otherwise-identical statements translate to different strings. -/
theorem claimC3_order_dependence :
    mysqlToSQLiteParser (lit "id INTEGER AUTO_INCREMENT PRIMARY KEY") =
      some (lit "id INTEGER PRIMARY KEY AUTOINCREMENT") ∧
    mysqlToSQLiteParser (lit "id INTEGER PRIMARY KEY AUTO_INCREMENT") =
      some (lit "id INTEGER PRIMARY KEY PRIMARY KEY AUTOINCREMENT") ∧
    mysqlToSQLiteParser (lit "id INTEGER AUTO_INCREMENT PRIMARY KEY") ≠
      mysqlToSQLiteParser (lit "id INTEGER PRIMARY KEY AUTO_INCREMENT") := by decide

/-- C4: the spec claims a statement containing `GROUP_CONCAT(DISTINCT a.b)`
keeps the `DISTINCT` keyword and the dot-qualified argument inside the
aggregation call.  In fact the `CONCAT` rule (which has no word boundary)
matches the `CONCAT(DISTINCT a.b)` inside `GROUP_CONCAT(...)` first and
deletes the call structure entirely, leaving `GROUP_DISTINCT a.b`; no
`GROUP_CONCAT` call survives to the output. -/
theorem claimC4_group_concat_destroyed :
    mysqlToSQLiteParser (lit "SELECT GROUP_CONCAT(DISTINCT a.b) FROM t") =
      some (lit "SELECT GROUP_DISTINCT a.b FROM t") ∧
    occursIn (lit "GROUP_CONCAT")
      (lit "SELECT GROUP_DISTINCT a.b FROM t") = false := by decide

/-- C5: the spec claims an outer-join keyword is normalised to `LEFT JOIN`
and that the later join rule does not re-match the already-normalised
keyword.  In fact the second join rule's `\bJOIN\b` alternative re-matches
the `JOIN` of the freshly produced `LEFT JOIN` and rewrites it to
`INNER JOIN`, so the output contains `LEFT INNER JOIN` instead. -/
theorem claimC5_left_join_not_preserved :
    mysqlToSQLiteParser (lit "SELECT * FROM a LEFT JOIN b") =
      some (lit "SELECT * FROM a LEFT INNER JOIN b") ∧
    mysqlToSQLiteParser (lit "SELECT * FROM a LEFT JOIN b") ≠
      some (lit "SELECT * FROM a LEFT JOIN b") := by decide

/-- C6: the spec claims the argument capture of a mapped call tracks
balanced parentheses.  The rules use a lazy `(.*?)\)` capture that stops at
the first closing parenthesis: `YEAR(MAX(d))` is truncated to the capture
`MAX(d`, so the output is not the balanced-capture result. -/
theorem claimC6_nested_parens_truncated :
    mysqlToSQLiteParser (lit "SELECT YEAR(MAX(d)) FROM t") =
      some (lit "SELECT CAST(strftime('%Y', MAX(d) AS INTEGER)) FROM t") ∧
    mysqlToSQLiteParser (lit "SELECT YEAR(MAX(d)) FROM t") ≠
      some (lit "SELECT CAST(strftime('%Y', MAX(d)) AS INTEGER) FROM t") := by decide

/-- C2, counterexample: the translated output of
`id INTEGER AUTO_INCREMENT PRIMARY KEY` contains no further mapped
source-dialect construct, yet a second pass is not the identity — the first
auto-increment rule re-matches the target keyword `AUTOINCREMENT` and
duplicates `PRIMARY KEY`. -/
theorem claimC2_counterexample :
    mysqlToSQLiteParser (lit "id INTEGER AUTO_INCREMENT PRIMARY KEY") =
      some (lit "id INTEGER PRIMARY KEY AUTOINCREMENT") ∧
    noMappedSourceConstructs (lit "id INTEGER PRIMARY KEY AUTOINCREMENT") = true ∧
    mysqlToSQLiteParser (lit "id INTEGER PRIMARY KEY AUTOINCREMENT") ≠
      some (lit "id INTEGER PRIMARY KEY AUTOINCREMENT") := by decide

/-- C8, counterexample: a table-creation statement with a lower-case
`create table` header and two column lines reaches `formatCreateTable`
(the dispatch lowercases), but the formatter's case-sensitive
`line.startsWith('CREATE TABLE')` misses the header, `inColumns` never
becomes true, and the column lines are passed through without indentation:
the output does not consist of N indented column lines. -/
theorem claimC8_counterexample :
    mysqlToSQLiteParser (lit "create table t (\nx INTEGER,\ny INTEGER\n);") =
      some (lit "create table t (\nx INTEGER,\ny INTEGER\n    );") ∧
    splitLines (lit "create table t (\nx INTEGER,\ny INTEGER\n    );") =
      [lit "create table t (", lit "x INTEGER,", lit "y INTEGER", lit "    );"] ∧
    hasPrefixStr (lit " ") (lit "x INTEGER,") = false := by decide

/-! ### Substring and suffix infrastructure -/

theorem occursIn_of_hasPrefix {pat s : Str} (h : hasPrefixStr pat s = true) :
    occursIn pat s = true := by
  cases s with
  | nil => simpa [occursIn] using h
  | cons c cs => simp [occursIn, h]

theorem occursIn_cons {pat : Str} {c : Char} {cs : Str}
    (h : occursIn pat cs = true) : occursIn pat (c :: cs) = true := by
  simp [occursIn, h]

theorem occursIn_append_left {pat u s : Str} (h : occursIn pat s = true) :
    occursIn pat (u ++ s) = true := by
  induction u with
  | nil => simpa using h
  | cons c cs ih => exact occursIn_cons ih

theorem occursIn_mono_suffix {pat t s : Str} (ht : t <:+ s)
    (h : occursIn pat t = true) : occursIn pat s = true := by
  obtain ⟨u, rfl⟩ := ht
  exact occursIn_append_left h

theorem occursIn_of_suffix {pat t s : Str} (ht : t <:+ s)
    (hp : hasPrefixStr pat t = true) : occursIn pat s = true :=
  occursIn_mono_suffix ht (occursIn_of_hasPrefix hp)

theorem occursIn_suffix_false {pat t s : Str} (ht : t <:+ s)
    (h : occursIn pat s = false) : occursIn pat t = false := by
  cases ho : occursIn pat t with
  | false => rfl
  | true => exact absurd (occursIn_mono_suffix ht ho) (by simp [h])

theorem hasPrefix_false_of_noOccur {pat t s : Str} (ht : t <:+ s)
    (h : occursIn pat s = false) : hasPrefixStr pat t = false := by
  cases hp : hasPrefixStr pat t with
  | false => rfl
  | true => exact absurd (occursIn_of_suffix ht hp) (by simp [h])

theorem hasPrefix_append_of {a b t : Str} (h : hasPrefixStr (a ++ b) t = true) :
    occursIn b t = true := by
  induction a generalizing t with
  | nil => exact occursIn_of_hasPrefix (by simpa using h)
  | cons p ps ih =>
    cases t with
    | nil => simp [hasPrefixStr] at h
    | cons c cs =>
      simp only [List.cons_append, hasPrefixStr, Bool.and_eq_true] at h
      exact occursIn_cons (ih h.2)

theorem mem_of_hasPrefix {pat t : Str} (h : hasPrefixStr pat t = true) :
    ∀ c ∈ pat, c ∈ t := by
  induction pat generalizing t with
  | nil => simp
  | cons p ps ih =>
    cases t with
    | nil => simp [hasPrefixStr] at h
    | cons d ds =>
      simp only [hasPrefixStr, Bool.and_eq_true, decide_eq_true_eq] at h
      intro c hc
      rcases List.mem_cons.mp hc with rfl | hc
      · exact h.1 ▸ List.mem_cons_self _ _
      · exact List.mem_cons_of_mem _ (ih h.2 c hc)

theorem mem_of_occursIn {pat s : Str} (h : occursIn pat s = true) :
    ∀ c ∈ pat, c ∈ s := by
  induction s with
  | nil =>
    intro c hc
    cases pat with
    | nil => simp at hc
    | cons p ps => simp [occursIn, hasPrefixStr] at h
  | cons d ds ih =>
    simp only [occursIn, Bool.or_eq_true] at h
    rcases h with h | h
    · exact mem_of_hasPrefix h
    · exact fun c hc => List.mem_cons_of_mem _ (ih h c hc)

theorem occursIn_false_of_missing_char {pat s : Str} {c : Char} (hc : c ∈ pat)
    (hs : c ∉ s) : occursIn pat s = false := by
  cases ho : occursIn pat s with
  | false => rfl
  | true => exact absurd (mem_of_occursIn ho c hc) hs

theorem ciHasPrefix_lower {p t : Str} (h : ciHasPrefix p t = true) :
    hasPrefixStr (lowerStr p) (lowerStr t) = true := by
  induction p generalizing t with
  | nil => simp [lowerStr, hasPrefixStr]
  | cons x xs ih =>
    cases t with
    | nil => simp [ciHasPrefix] at h
    | cons c cs =>
      simp only [ciHasPrefix, Bool.and_eq_true, decide_eq_true_eq] at h
      simp only [lowerStr, List.map_cons, hasPrefixStr, Bool.and_eq_true,
        decide_eq_true_eq]
      exact ⟨h.1, ih h.2⟩

theorem lowerStr_suffix {t s : Str} (h : t <:+ s) : lowerStr t <:+ lowerStr s := by
  obtain ⟨u, rfl⟩ := h
  exact ⟨lowerStr u, by simp [lowerStr]⟩

theorem drop_isSuffix (n : Nat) (l : Str) : l.drop n <:+ l :=
  ⟨l.take n, List.take_append_drop n l⟩

theorem dropWhile_isSuffix (p : Char → Bool) (l : Str) : l.dropWhile p <:+ l :=
  ⟨l.takeWhile p, List.takeWhile_append_dropWhile p l⟩

theorem span_snd_isSuffix (p : Char → Bool) (l : Str) : (l.span p).2 <:+ l := by
  rw [List.span_eq_take_drop]
  exact dropWhile_isSuffix p l

/-! ### Identity lemmas for the rewrite engine -/

theorem runRepl_eq_self (m : RMatcher) :
    ∀ (s : Str) (prev : Option Char), (∀ p t, t <:+ s → m p t = none) →
      runRepl m 0 prev s = s := by
  intro s
  induction s with
  | nil => intro prev _; rfl
  | cons c cs ih =>
    intro prev h
    have h0 := h prev (c :: cs) (List.suffix_refl _)
    simp only [runRepl, h0]
    have : runRepl m 0 (some c) cs = cs := by
      apply ih
      intro p t ht
      obtain ⟨u, rfl⟩ := ht
      exact h p t ⟨c :: u, rfl⟩
    rw [this]

theorem take_of_hasPrefix {p t : Str} (h : hasPrefixStr p t = true) :
    t.take p.length = p := by
  induction p generalizing t with
  | nil => simp
  | cons x xs ih =>
    cases t with
    | nil => simp [hasPrefixStr] at h
    | cons c cs =>
      simp only [hasPrefixStr, Bool.and_eq_true, decide_eq_true_eq] at h
      simp [List.take, ih h.2, h.1]

theorem runRepl_selfRepl (m : RMatcher)
    (hm : ∀ p t k r, m p t = some (k, r) → 1 ≤ k ∧ r = t.take k) :
    ∀ (s : Str) (n : Nat) (prev : Option Char), runRepl m n prev s = s.drop n := by
  intro s
  induction s with
  | nil => intro n prev; cases n <;> rfl
  | cons c cs ih =>
    intro n prev
    cases n with
    | succ n => simpa [runRepl] using ih n (some c)
    | zero =>
      simp only [List.drop_zero]
      cases hmm : m prev (c :: cs) with
      | none => simp [runRepl, hmm, ih 0 (some c)]
      | some x =>
        obtain ⟨k, r⟩ := x
        obtain ⟨hk, hr⟩ := hm prev (c :: cs) k r hmm
        obtain ⟨j, rfl⟩ : ∃ j, k = j + 1 := ⟨k - 1, by omega⟩
        simp only [runRepl, hmm, Nat.add_sub_cancel, Nat.succ_ne_zero, if_false, hr]
        rw [ih j (some c)]
        simp [List.take_cons, List.take_append_drop]

/-- A rule whose only entry point is a literal prefix check leaves every
statement not containing that literal unchanged. -/
theorem applyRule_id_of_notrigger (m : RMatcher) (trig : Str)
    (hm : ∀ p t, hasPrefixStr trig t = false → m p t = none)
    (s : Str) (h : occursIn trig s = false) : applyRule m s = s := by
  apply runRepl_eq_self
  intro p t ht
  exact hm p t (hasPrefix_false_of_noOccur ht h)

theorem applyRule_ruleConcat_id (s : Str)
    (h : occursIn (lit "CONCAT(") s = false) : applyRule ruleConcat s = s :=
  applyRule_id_of_notrigger _ _ (fun p t hp => by simp [ruleConcat, hp]) s h

theorem applyRule_ruleSubstring_id (s : Str)
    (h : occursIn (lit "SUBSTRING(") s = false) : applyRule ruleSubstring s = s :=
  applyRule_id_of_notrigger _ _ (fun p t hp => by simp [ruleSubstring, hp]) s h

theorem applyRule_ruleDateAdd_id (s : Str)
    (h : occursIn (lit "DATE_ADD(") s = false) : applyRule ruleDateAdd s = s :=
  applyRule_id_of_notrigger _ _ (fun p t hp => by simp [ruleDateAdd, hp]) s h

theorem applyRule_ruleDateSub_id (s : Str)
    (h : occursIn (lit "DATE_SUB(") s = false) : applyRule ruleDateSub s = s :=
  applyRule_id_of_notrigger _ _ (fun p t hp => by simp [ruleDateSub, hp]) s h

theorem applyRule_ruleDateDiff_id (s : Str)
    (h : occursIn (lit "DATEDIFF(") s = false) : applyRule ruleDateDiff s = s :=
  applyRule_id_of_notrigger _ _ (fun p t hp => by simp [ruleDateDiff, hp]) s h

theorem applyRule_ruleYear_id (s : Str)
    (h : occursIn (lit "YEAR(") s = false) : applyRule ruleYear s = s :=
  applyRule_id_of_notrigger _ _ (fun p t hp => by simp [ruleYear, hp]) s h

theorem applyRule_ruleMonth_id (s : Str)
    (h : occursIn (lit "MONTH(") s = false) : applyRule ruleMonth s = s :=
  applyRule_id_of_notrigger _ _ (fun p t hp => by simp [ruleMonth, hp]) s h

theorem applyRule_ruleDay_id (s : Str)
    (h : occursIn (lit "DAY(") s = false) : applyRule ruleDay s = s :=
  applyRule_id_of_notrigger _ _ (fun p t hp => by simp [ruleDay, hp]) s h

theorem applyRule_ruleNow_id (s : Str)
    (h : occursIn (lit "NOW()") s = false) : applyRule ruleNow s = s :=
  applyRule_id_of_notrigger _ _ (fun p t hp => by simp [ruleNow, hp]) s h

theorem applyRule_ruleCeil_id (s : Str)
    (h : occursIn (lit "CEIL(") s = false) : applyRule ruleCeil s = s :=
  applyRule_id_of_notrigger _ _ (fun p t hp => by simp [ruleCeil, hp]) s h

theorem applyRule_ruleFloor_id (s : Str)
    (h : occursIn (lit "FLOOR(") s = false) : applyRule ruleFloor s = s :=
  applyRule_id_of_notrigger _ _ (fun p t hp => by simp [ruleFloor, hp]) s h

theorem applyRule_ruleMod_id (s : Str)
    (h : occursIn (lit "MOD(") s = false) : applyRule ruleMod s = s :=
  applyRule_id_of_notrigger _ _ (fun p t hp => by simp [ruleMod, hp]) s h

theorem applyRule_ruleRand_id (s : Str)
    (h : occursIn (lit "RAND()") s = false) : applyRule ruleRand s = s :=
  applyRule_id_of_notrigger _ _ (fun p t hp => by simp [ruleRand, hp]) s h

theorem applyRule_ruleIfnull_id (s : Str)
    (h : occursIn (lit "IFNULL(") s = false) : applyRule ruleIfnull s = s :=
  applyRule_id_of_notrigger _ _ (fun p t hp => by simp [ruleIfnull, hp]) s h

theorem applyRule_ruleIf_id (s : Str)
    (h : occursIn (lit "IF(") s = false) : applyRule ruleIf s = s :=
  applyRule_id_of_notrigger _ _ (fun p t hp => by simp [ruleIf, hp]) s h

theorem applyRule_ruleNullif_id (s : Str)
    (h : occursIn (lit "NULLIF(") s = false) : applyRule ruleNullif s = s :=
  applyRule_id_of_notrigger _ _ (fun p t hp => by simp [ruleNullif, hp]) s h

theorem applyRule_ruleTimestamp_id (s : Str)
    (h : occursIn (lit "TIMESTAMP") s = false) : applyRule ruleTimestamp s = s :=
  applyRule_id_of_notrigger _ _ (fun p t hp => by simp [ruleTimestamp, hp]) s h

theorem applyRule_ruleBinary_id (s : Str)
    (h : occursIn (lit "BINARY") s = false) : applyRule ruleBinary s = s :=
  applyRule_id_of_notrigger _ _ (fun p t hp => by simp [ruleBinary, hp]) s h

theorem intTypeAlt_none {t : Str} (h : occursIn (lit "INT(") t = false) :
    intTypeAlt t = none := by
  unfold intTypeAlt
  split_ifs with h1 h2 h3 h4 h5
  · have e : lit "TINYINT(" = lit "TINY" ++ lit "INT(" := by decide
    rw [e] at h1
    exact absurd (hasPrefix_append_of h1) (by simp [h])
  · have e : lit "SMALLINT(" = lit "SMALL" ++ lit "INT(" := by decide
    rw [e] at h2
    exact absurd (hasPrefix_append_of h2) (by simp [h])
  · have e : lit "MEDIUMINT(" = lit "MEDIUM" ++ lit "INT(" := by decide
    rw [e] at h3
    exact absurd (hasPrefix_append_of h3) (by simp [h])
  · have e : lit "BIGINT(" = lit "BIG" ++ lit "INT(" := by decide
    rw [e] at h4
    exact absurd (hasPrefix_append_of h4) (by simp [h])
  · exact absurd (occursIn_of_hasPrefix h5) (by simp [h])
  · rfl

theorem applyRule_ruleIntTypes_id (s : Str)
    (h : occursIn (lit "INT(") s = false) : applyRule ruleIntTypes s = s := by
  apply runRepl_eq_self
  intro p t ht
  have h' := occursIn_suffix_false ht h
  simp [ruleIntTypes, intTypeAlt_none h']

theorem applyRule_ruleCharText_id (s : Str)
    (hChar : occursIn (lit "CHAR(") s = false)
    (hText : occursIn (lit "TEXT(") s = false) : applyRule ruleCharText s = s := by
  apply runRepl_eq_self
  intro p t ht
  have hc : hasPrefixStr (lit "CHAR(") t = false :=
    hasPrefix_false_of_noOccur ht hChar
  have htx : hasPrefixStr (lit "TEXT(") t = false :=
    hasPrefix_false_of_noOccur ht hText
  have hv : hasPrefixStr (lit "VARCHAR(") t = false := by
    cases hx : hasPrefixStr (lit "VARCHAR(") t with
    | false => rfl
    | true =>
      have e : lit "VARCHAR(" = lit "VAR" ++ lit "CHAR(" := by decide
      rw [e] at hx
      exact absurd (occursIn_mono_suffix ht (hasPrefix_append_of hx)) (by simp [hChar])
  simp [ruleCharText, hv, hc, htx]

theorem applyRule_ruleDecimalTypes_id (s : Str)
    (h1 : occursIn (lit "DECIMAL(") s = false)
    (h2 : occursIn (lit "FLOAT(") s = false)
    (h3 : occursIn (lit "DOUBLE(") s = false) :
    applyRule ruleDecimalTypes s = s := by
  apply runRepl_eq_self
  intro p t ht
  simp [ruleDecimalTypes, hasPrefix_false_of_noOccur ht h1,
    hasPrefix_false_of_noOccur ht h2, hasPrefix_false_of_noOccur ht h3]

theorem ruleOuterJoin_trigger {p : Option Char} {t : Str} {x : Nat × Str}
    (hx : ruleOuterJoin p t = some x) : occursIn (lit "JOIN") t = true := by
  have husub : ∀ k : Nat, ((t.drop k).span isWsChar).2 <:+ t :=
    fun k => (span_snd_isSuffix _ _).trans (drop_isSuffix k t)
  have hqsub : ∀ k : Nat,
      (((((t.drop k).span isWsChar).2.drop 5).span isWsChar).2) <:+ t :=
    fun k => (span_snd_isSuffix _ _).trans ((drop_isSuffix 5 _).trans (husub k))
  unfold ruleOuterJoin at hx
  by_cases hw : notWordB p = true
  case neg =>
    rw [if_neg hw] at hx; simp at hx
  rw [if_pos hw] at hx
  cases hkw : joinKw t with
  | none => rw [hkw] at hx; simp at hx
  | some k =>
    rw [hkw] at hx
    simp only at hx
    by_cases hsp : ((t.drop k).span isWsChar).1 = []
    · rw [if_pos hsp] at hx; simp at hx
    · rw [if_neg hsp] at hx
      by_cases ho : hasPrefixStr (lit "OUTER") (((t.drop k).span isWsChar).2) = true
      · rw [if_pos ho] at hx
        by_cases hg : (((((((t.drop k).span isWsChar).2.drop 5).span isWsChar).1 ≠ []) : Bool)
            && hasPrefixStr (lit "JOIN") (((((t.drop k).span isWsChar).2.drop 5).span isWsChar).2)
            && wordEndB ((((((t.drop k).span isWsChar).2.drop 5).span isWsChar).2).drop 4)) = true
        · simp only [Bool.and_eq_true] at hg
          exact occursIn_of_suffix (hqsub k) hg.1.2
        · rw [if_neg hg] at hx
          simp only at hx
          by_cases hj : (hasPrefixStr (lit "JOIN") (((t.drop k).span isWsChar).2)
              && wordEndB ((((t.drop k).span isWsChar).2).drop 4)) = true
          · simp only [Bool.and_eq_true] at hj
            exact occursIn_of_suffix (husub k) hj.1
          · rw [if_neg hj] at hx; simp at hx
      · rw [if_neg ho] at hx
        simp only at hx
        by_cases hj : (hasPrefixStr (lit "JOIN") (((t.drop k).span isWsChar).2)
            && wordEndB ((((t.drop k).span isWsChar).2).drop 4)) = true
        · simp only [Bool.and_eq_true] at hj
          exact occursIn_of_suffix (husub k) hj.1
        · rw [if_neg hj] at hx; simp at hx

theorem applyRule_ruleOuterJoin_id (s : Str)
    (h : occursIn (lit "JOIN") s = false) : applyRule ruleOuterJoin s = s := by
  apply runRepl_eq_self
  intro p t ht
  cases hr : ruleOuterJoin p t with
  | none => rfl
  | some x =>
    exact absurd (occursIn_mono_suffix ht (ruleOuterJoin_trigger hr)) (by simp [h])

theorem ruleInnerJoin_trigger {p : Option Char} {t : Str} {x : Nat × Str}
    (hx : ruleInnerJoin p t = some x) : occursIn (lit "JOIN") t = true := by
  have hsub : ((t.drop 5).span isWsChar).2 <:+ t :=
    (span_snd_isSuffix _ _).trans (drop_isSuffix 5 t)
  have halt2 : ∀ hx2 : (if (notWordB p && hasPrefixStr (lit "JOIN") t
      && wordEndB (t.drop 4)) = true
      then some (4, lit "INNER JOIN") else none) = some x,
      occursIn (lit "JOIN") t = true := by
    intro hx2
    by_cases hj : (notWordB p && hasPrefixStr (lit "JOIN") t && wordEndB (t.drop 4)) = true
    · simp only [Bool.and_eq_true] at hj
      exact occursIn_of_hasPrefix hj.1.2
    · rw [if_neg hj] at hx2; simp at hx2
  unfold ruleInnerJoin at hx
  by_cases hi : (notWordB p && hasPrefixStr (lit "INNER") t) = true
  · rw [if_pos hi] at hx
    by_cases hg : (((((t.drop 5).span isWsChar).1 ≠ []) : Bool)
        && hasPrefixStr (lit "JOIN") (((t.drop 5).span isWsChar).2)
        && wordEndB ((((t.drop 5).span isWsChar).2).drop 4)) = true
    · simp only [Bool.and_eq_true] at hg
      exact occursIn_of_suffix hsub hg.1.2
    · rw [if_neg hg] at hx
      simp only at hx
      exact halt2 hx
  · rw [if_neg hi] at hx
    simp only at hx
    exact halt2 hx

theorem applyRule_ruleInnerJoin_id (s : Str)
    (h : occursIn (lit "JOIN") s = false) : applyRule ruleInnerJoin s = s := by
  apply runRepl_eq_self
  intro p t ht
  cases hr : ruleInnerJoin p t with
  | none => rfl
  | some x =>
    exact absurd (occursIn_mono_suffix ht (ruleInnerJoin_trigger hr)) (by simp [h])

theorem ciAuto_false {t s : Str} (ht : t <:+ s)
    (hA : occursIn (lit "auto_increment") (lowerStr s) = false)
    (hB : occursIn (lit "autoincrement") (lowerStr s) = false) :
    ciHasPrefix (lit "AUTO_INCREMENT") t = false ∧
    ciHasPrefix (lit "AUTOINCREMENT") t = false := by
  constructor
  · cases hc : ciHasPrefix (lit "AUTO_INCREMENT") t with
    | false => rfl
    | true =>
      have := ciHasPrefix_lower hc
      have e : lowerStr (lit "AUTO_INCREMENT") = lit "auto_increment" := by decide
      rw [e] at this
      exact absurd (occursIn_of_suffix (lowerStr_suffix ht) this) (by simp [hA])
  · cases hc : ciHasPrefix (lit "AUTOINCREMENT") t with
    | false => rfl
    | true =>
      have := ciHasPrefix_lower hc
      have e : lowerStr (lit "AUTOINCREMENT") = lit "autoincrement" := by decide
      rw [e] at this
      exact absurd (occursIn_of_suffix (lowerStr_suffix ht) this) (by simp [hB])

theorem applyRule_ruleAutoInc1_id (s : Str)
    (hA : occursIn (lit "auto_increment") (lowerStr s) = false)
    (hB : occursIn (lit "autoincrement") (lowerStr s) = false) :
    applyRule ruleAutoInc1 s = s := by
  apply runRepl_eq_self
  intro p t ht
  obtain ⟨h1, h2⟩ := ciAuto_false ht hA hB
  simp [ruleAutoInc1, h1, h2]

theorem applyRule_ruleAutoInc2_id (s : Str)
    (hA : occursIn (lit "auto_increment") (lowerStr s) = false)
    (hB : occursIn (lit "autoincrement") (lowerStr s) = false) :
    applyRule ruleAutoInc2 s = s := by
  apply runRepl_eq_self
  intro p t ht
  by_cases hp : ciHasPrefix (lit "PRIMARY") t = true
  · have hsub : List.dropWhile isWsChar
        (List.drop 3 (List.dropWhile isWsChar (List.drop 7 t))) <:+ s :=
      (dropWhile_isSuffix _ _).trans ((drop_isSuffix 3 _).trans
        ((dropWhile_isSuffix _ _).trans ((drop_isSuffix 7 t).trans ht)))
    obtain ⟨h1, h2⟩ := ciAuto_false hsub hA hB
    simp [ruleAutoInc2, hp, h1, h2]
  · simp only [Bool.not_eq_true] at hp
    simp [ruleAutoInc2, hp]

theorem applyRule_ruleEngineStrip_id (s : Str)
    (h1 : occursIn (lit "ENGINE=") s = false)
    (h2 : occursIn (lit "DEFAULT CHARSET=") s = false)
    (h3 : occursIn (lit "COLLATE=") s = false) :
    applyRule ruleEngineStrip s = s := by
  apply runRepl_eq_self
  intro p t ht
  simp [ruleEngineStrip, hasPrefix_false_of_noOccur ht h1,
    hasPrefix_false_of_noOccur ht h2, hasPrefix_false_of_noOccur ht h3]

theorem altParen_spec {alts : List Str} {t w : Str}
    (h : altParen alts t = some w) : hasPrefixStr (w ++ lit "(") t = true := by
  induction alts with
  | nil => simp [altParen] at h
  | cons a as ih =>
    unfold altParen at h
    split_ifs at h with ha
    · cases h; exact ha
    · exact ih h

theorem applyRule_ruleStringFns_id (s : Str) : applyRule ruleStringFns s = s := by
  have hm : ∀ p t k r, ruleStringFns p t = some (k, r) → 1 ≤ k ∧ r = t.take k := by
    intro p t k r hm
    unfold ruleStringFns at hm
    split_ifs at hm
    cases ha : altParen [lit "LENGTH", lit "UPPER", lit "LOWER", lit "TRIM",
        lit "LTRIM", lit "RTRIM", lit "REPLACE"] t with
    | none => rw [ha] at hm; simp at hm
    | some w =>
      rw [ha] at hm
      simp only [Option.some.injEq, Prod.mk.injEq] at hm
      obtain ⟨hk, hr⟩ := hm
      have hp := altParen_spec ha
      have hlen : (w ++ lit "(").length = w.length + 1 := by simp [lit]
      constructor
      · omega
      · rw [← hr, ← hk, ← hlen, take_of_hasPrefix hp]
  simpa [applyRule] using runRepl_selfRepl ruleStringFns hm s 0 none

theorem applyRule_ruleMathFns_id (s : Str) : applyRule ruleMathFns s = s := by
  have hm : ∀ p t k r, ruleMathFns p t = some (k, r) → 1 ≤ k ∧ r = t.take k := by
    intro p t k r hm
    unfold ruleMathFns at hm
    split_ifs at hm
    cases ha : altParen [lit "POW", lit "ABS", lit "SQRT"] t with
    | none => rw [ha] at hm; simp at hm
    | some w =>
      rw [ha] at hm
      simp only [Option.some.injEq, Prod.mk.injEq] at hm
      obtain ⟨hk, hr⟩ := hm
      have hp := altParen_spec ha
      have hlen : (w ++ lit "(").length = w.length + 1 := by simp [lit]
      constructor
      · omega
      · rw [← hr, ← hk, ← hlen, take_of_hasPrefix hp]
  simpa [applyRule] using runRepl_selfRepl ruleMathFns hm s 0 none

/-- On a statement containing no rule trigger, the whole rewrite stage is
the identity. -/
theorem applyMappings_id (s : Str) (h : rulesQuiet s = true) :
    applyMappings s = s := by
  simp only [rulesQuiet, noMappedSourceConstructs, Bool.and_eq_true,
    Bool.not_eq_true', and_assoc] at h
  obtain ⟨hConcat, hSubstring, hDateAdd, hDateSub, hDateDiff, hYear, hMonth, hDay,
    hNow, hCeil, hFloor, hMod, hRand, hIfnull, hIf, hNullif, hInt, hChar, hText,
    hDecimal, hFloat, hDouble, hTimestamp, hBinary, hJoin, hAutoU, hEngine,
    hCharset, hCollate, hRollup, hAutoN⟩ := h
  simp only [applyMappings, functionMappings, List.foldl]
  rw [applyRule_ruleConcat_id s hConcat, applyRule_ruleSubstring_id s hSubstring,
    applyRule_ruleStringFns_id s,
    applyRule_ruleDateAdd_id s hDateAdd, applyRule_ruleDateSub_id s hDateSub,
    applyRule_ruleDateDiff_id s hDateDiff, applyRule_ruleYear_id s hYear,
    applyRule_ruleMonth_id s hMonth, applyRule_ruleDay_id s hDay,
    applyRule_ruleNow_id s hNow, applyRule_ruleCeil_id s hCeil,
    applyRule_ruleFloor_id s hFloor, applyRule_ruleMathFns_id s,
    applyRule_ruleMod_id s hMod, applyRule_ruleRand_id s hRand,
    applyRule_ruleIfnull_id s hIfnull, applyRule_ruleIf_id s hIf,
    applyRule_ruleNullif_id s hNullif, applyRule_ruleIntTypes_id s hInt,
    applyRule_ruleCharText_id s hChar hText,
    applyRule_ruleDecimalTypes_id s hDecimal hFloat hDouble,
    applyRule_ruleTimestamp_id s hTimestamp, applyRule_ruleBinary_id s hBinary,
    applyRule_ruleOuterJoin_id s hJoin, applyRule_ruleInnerJoin_id s hJoin,
    applyRule_ruleAutoInc1_id s hAutoU hAutoN,
    applyRule_ruleAutoInc2_id s hAutoU hAutoN]

theorem applyRule_engine_of_quiet (s : Str) (h : rulesQuiet s = true) :
    applyRule ruleEngineStrip s = s := by
  simp only [rulesQuiet, noMappedSourceConstructs, Bool.and_eq_true,
    Bool.not_eq_true', and_assoc] at h
  exact applyRule_ruleEngineStrip_id s h.2.2.2.2.2.2.2.2.2.2.2.2.2.2.2.2.2.2.2.2.2.2.2.2.2.2.1
    h.2.2.2.2.2.2.2.2.2.2.2.2.2.2.2.2.2.2.2.2.2.2.2.2.2.2.2.1
    h.2.2.2.2.2.2.2.2.2.2.2.2.2.2.2.2.2.2.2.2.2.2.2.2.2.2.2.2.1

theorem rollup_absent_of_quiet (s : Str) (h : rulesQuiet s = true) :
    occursIn wrLit s = false := by
  simp only [rulesQuiet, noMappedSourceConstructs, Bool.and_eq_true,
    Bool.not_eq_true', and_assoc] at h
  exact h.2.2.2.2.2.2.2.2.2.2.2.2.2.2.2.2.2.2.2.2.2.2.2.2.2.2.2.2.2.1

/-- C2, amended: `translate` is a fixed point on single-line,
whitespace-normalised plain-query statements that contain no rule trigger —
neither a mapped source-dialect construct nor the target `AUTOINCREMENT`
keyword (which the first auto-increment rule re-matches, refuting the claim
as stated) — and none of the formatter dispatch keywords.  On such a
statement every pipeline stage is the identity. -/
theorem claimC2_amended (s : Str) (h : plainSafe s = true) :
    mysqlToSQLiteParser s = some s := by
  simp only [plainSafe, Bool.and_eq_true, and_assoc, Bool.not_eq_true',
    decide_eq_true_eq] at h
  obtain ⟨hq, hws, hbl, htr, hall, hnl, hct, hgc, hcw, hgb⟩ := h
  have hmaps := applyMappings_id s hq
  have heng := applyRule_engine_of_quiet s hq
  have hwr := rollup_absent_of_quiet s hq
  simp only [mysqlToSQLiteParser, formattedStage, postCleanup, hmaps, heng,
    hws, hbl, htr, hct, hgc, Bool.false_eq_true, if_false, Option.map_some]
  simp only [formatSQL, hnl, hcw, hgb, Bool.not_false, Bool.and_self,
    Bool.true_and, if_true, hall, htr]
  simp [rollupStep, hwr]

/-- Witness for the amended C2 at a concrete fixed point. -/
theorem claimC2_amended_witness :
    plainSafe (lit "SELECT name FROM users WHERE id = 7") = true ∧
    mysqlToSQLiteParser (lit "SELECT name FROM users WHERE id = 7") =
      some (lit "SELECT name FROM users WHERE id = 7") :=
  ⟨by decide, claimC2_amended (lit "SELECT name FROM users WHERE id = 7") (by decide)⟩

/-- C10: every rule of the table except the two auto-increment rules (the
only `/i` rules) matches case-sensitively.  On a statement with no
upper-case letter at all — and, for the two case-insensitive rules, no
`auto_increment`/`autoincrement` keyword in any case — the whole rewrite
stage is the identity, because every other rule's trigger text contains an
upper-case letter; concretely, lower-case `ifnull(x,0)`, `concat(a,b)` and
`int(11)` pass through `translate` unchanged, while a lower-case
`auto_increment` is still rewritten to the target auto-increment syntax. -/
theorem claimC10_case_sensitivity :
    (∀ s : Str, (∀ c ∈ s, isUpperChar c = false) →
      occursIn (lit "auto_increment") (lowerStr s) = false →
      occursIn (lit "autoincrement") (lowerStr s) = false →
      applyMappings s = s) ∧
    mysqlToSQLiteParser (lit "select ifnull(x,0), concat(a,b) from t") =
      some (lit "select ifnull(x,0), concat(a,b) from t") ∧
    mysqlToSQLiteParser (lit "id int(11) auto_increment") =
      some (lit "id int(11) PRIMARY KEY AUTOINCREMENT") := by
  refine ⟨?_, by decide, by decide⟩
  intro s hupper hA hB
  apply applyMappings_id
  have hnotin : ∀ c : Char, isUpperChar c = true → c ∉ s := by
    intro c hc hmem
    rw [hupper c hmem] at hc
    exact absurd hc (by simp)
  have habs : ∀ (pat : Str) (c : Char), c ∈ pat → isUpperChar c = true →
      occursIn pat s = false :=
    fun pat c hcp hcu => occursIn_false_of_missing_char hcp (hnotin c hcu)
  simp only [rulesQuiet, noMappedSourceConstructs, Bool.and_eq_true,
    Bool.not_eq_true', and_assoc]
  exact ⟨habs _ 'C' (by decide) (by decide), habs _ 'S' (by decide) (by decide),
    habs _ 'D' (by decide) (by decide), habs _ 'D' (by decide) (by decide),
    habs _ 'D' (by decide) (by decide), habs _ 'Y' (by decide) (by decide),
    habs _ 'M' (by decide) (by decide), habs _ 'D' (by decide) (by decide),
    habs _ 'N' (by decide) (by decide), habs _ 'C' (by decide) (by decide),
    habs _ 'F' (by decide) (by decide), habs _ 'M' (by decide) (by decide),
    habs _ 'R' (by decide) (by decide), habs _ 'I' (by decide) (by decide),
    habs _ 'I' (by decide) (by decide), habs _ 'N' (by decide) (by decide),
    habs _ 'I' (by decide) (by decide), habs _ 'C' (by decide) (by decide),
    habs _ 'T' (by decide) (by decide), habs _ 'D' (by decide) (by decide),
    habs _ 'F' (by decide) (by decide), habs _ 'D' (by decide) (by decide),
    habs _ 'T' (by decide) (by decide), habs _ 'B' (by decide) (by decide),
    habs _ 'J' (by decide) (by decide), hA,
    habs _ 'E' (by decide) (by decide), habs _ 'D' (by decide) (by decide),
    habs _ 'C' (by decide) (by decide), habs _ 'W' (by decide) (by decide), hB⟩

/-- Witness for C10 at a concrete lower-case statement. -/
theorem claimC10_witness :
    applyMappings (lit "select x, y from t where a = b") =
      lit "select x, y from t where a = b" :=
  claimC10_case_sensitivity.1 (lit "select x, y from t where a = b")
    (by decide) (by decide) (by decide)

theorem hasPrefixStr_iff {p s : Str} : hasPrefixStr p s = true ↔ p <+: s := by
  induction p generalizing s with
  | nil => simp [hasPrefixStr]
  | cons x xs ih =>
    cases s with
    | nil => simp [hasPrefixStr]
    | cons c cs =>
      simp only [hasPrefixStr, Bool.and_eq_true, decide_eq_true_eq,
        List.cons_prefix_cons, ih]

theorem wcGo_ne_nil : ∀ (s : Str) (n : Nat), wcGo n s ≠ [] := by
  intro s
  induction s with
  | nil => intro n; cases n <;> simp [wcGo]
  | cons c cs ih =>
    intro n
    cases n with
    | succ n => simpa [wcGo] using ih n
    | zero =>
      by_cases hp : hasPrefixStr wrLit (c :: cs) = true
      · simp [wcGo, hp]
      · simp only [wcGo, hp, Bool.false_eq_true, if_false]
        cases hc : wcGo 0 cs with
        | nil => simp
        | cons l ls => simp

theorem wcGo_head_prefix : ∀ (s : Str) (l : Str) (ls : List Str),
    wcGo 0 s = l :: ls → l <+: s := by
  intro s
  induction s with
  | nil => intro l ls h; simp [wcGo] at h; simp [h.1]
  | cons c cs ih =>
    intro l ls h
    by_cases hp : hasPrefixStr wrLit (c :: cs) = true
    · simp only [wcGo, hp, if_true] at h
      cases h
      exact List.nil_prefix
    · simp only [wcGo, hp, Bool.false_eq_true, if_false] at h
      cases hc : wcGo 0 cs with
      | nil => exact absurd hc (wcGo_ne_nil cs 0)
      | cons l₂ ls₂ =>
        rw [hc] at h
        injection h with h1 h2
        subst h1
        exact List.cons_prefix_cons.mpr ⟨rfl, ih l₂ ls₂ hc⟩

theorem rrGo_eq_joinSep : ∀ (s : Str) (n : Nat),
    rrGo n s = joinSep rollupMarker (wcGo n s) := by
  intro s
  induction s with
  | nil => intro n; cases n <;> simp [rrGo, wcGo, joinSep]
  | cons c cs ih =>
    intro n
    cases n with
    | succ n => simpa [rrGo, wcGo] using ih n
    | zero =>
      by_cases hp : hasPrefixStr wrLit (c :: cs) = true
      · simp only [rrGo, wcGo, hp, if_true]
        cases hc : wcGo 10 cs with
        | nil => exact absurd hc (wcGo_ne_nil cs 10)
        | cons y ys =>
          simp only [joinSep]
          rw [ih 10, hc]
          simp [joinSep]
      · simp only [rrGo, wcGo, hp, Bool.false_eq_true, if_false]
        cases hc : wcGo 0 cs with
        | nil => exact absurd hc (wcGo_ne_nil cs 0)
        | cons l ls =>
          rw [ih 0, hc]
          cases ls with
          | nil => simp [joinSep]
          | cons y ys => simp [joinSep]

theorem wcGo_chunks_free : ∀ (s : Str) (n : Nat),
    ∀ ch ∈ wcGo n s, occursIn wrLit ch = false := by
  intro s
  induction s with
  | nil =>
    intro n ch hch
    have : ch = [] := by cases n <;> simpa [wcGo] using hch
    subst this
    decide
  | cons c cs ih =>
    intro n ch hch
    cases n with
    | succ n => exact ih n ch (by simpa [wcGo] using hch)
    | zero =>
      by_cases hp : hasPrefixStr wrLit (c :: cs) = true
      · simp only [wcGo, hp, if_true, List.mem_cons] at hch
        rcases hch with rfl | hch
        · decide
        · exact ih 10 ch hch
      · simp only [wcGo, hp, Bool.false_eq_true, if_false] at hch
        cases hc : wcGo 0 cs with
        | nil => exact absurd hc (wcGo_ne_nil cs 0)
        | cons l ls =>
          rw [hc] at hch
          simp only [List.mem_cons] at hch
          rcases hch with rfl | hch
          · have hl := ih 0 l (hc ▸ List.mem_cons_self l ls)
            have hpre : hasPrefixStr wrLit (c :: l) = false := by
              cases hx : hasPrefixStr wrLit (c :: l) with
              | false => rfl
              | true =>
                have hlp : (c :: l) <+: (c :: cs) :=
                  List.cons_prefix_cons.mpr ⟨rfl, wcGo_head_prefix cs l ls hc⟩
                have : wrLit <+: (c :: cs) :=
                  (hasPrefixStr_iff.mp hx).trans hlp
                exact absurd (hasPrefixStr_iff.mpr this) (by simp [hp])
            simp [occursIn, hpre, hl]
          · exact ih 0 ch (hc ▸ List.mem_cons_of_mem l hch)

theorem wcGo_len_two {s : Str} (h : occursIn wrLit s = true) :
    2 ≤ (wcGo 0 s).length := by
  induction s with
  | nil => simp [occursIn] at h; exact absurd h (by decide)
  | cons c cs ih =>
    by_cases hp : hasPrefixStr wrLit (c :: cs) = true
    · simp only [wcGo, hp, if_true, List.length_cons]
      have := wcGo_ne_nil cs 10
      have : 1 ≤ (wcGo 10 cs).length := by
        cases hx : wcGo 10 cs with
        | nil => exact absurd hx (wcGo_ne_nil cs 10)
        | cons a as => simp
      omega
    · simp only [occursIn, Bool.or_eq_true, hp, Bool.false_eq_true, false_or] at h
      have := ih h
      simp only [wcGo, hp, Bool.false_eq_true, if_false]
      cases hc : wcGo 0 cs with
      | nil => exact absurd hc (wcGo_ne_nil cs 0)
      | cons l ls =>
        rw [hc] at this
        simpa using this

theorem joinSep_marker_occurs {chunks : List Str} (h : 2 ≤ chunks.length) :
    occursIn rollupMarker (joinSep rollupMarker chunks) = true := by
  cases chunks with
  | nil => simp at h
  | cons x xs =>
    cases xs with
    | nil => simp at h
    | cons y ys =>
      simp only [joinSep]
      rw [List.append_assoc]
      apply occursIn_append_left
      apply occursIn_of_hasPrefix
      exact hasPrefixStr_iff.mpr ⟨joinSep rollupMarker (y :: ys), rfl⟩

/-- C9, amended: whenever the formatted statement still contains the
literal `WITH ROLLUP` at the final warning check, the output is exactly the
`WITH ROLLUP`-free chunks of the statement joined by the not-supported
marker comment: the output contains the marker, and the literal occurs in
the output only inside marker comments.  (A table-definition statement may
instead drop the construct before the check without emitting any marker —
the counterexample.) -/
theorem claimC9_amended (x t : Str) (hf : formattedStage x = some t)
    (hwr : occursIn wrLit t = true) :
    ∃ chunks : List Str,
      mysqlToSQLiteParser x = some (joinSep rollupMarker chunks) ∧
      (∀ ch ∈ chunks, occursIn wrLit ch = false) ∧
      2 ≤ chunks.length ∧
      occursIn rollupMarker (joinSep rollupMarker chunks) = true := by
  refine ⟨wrChunks t, ?_, fun ch hch => wcGo_chunks_free t 0 ch hch,
    wcGo_len_two hwr, joinSep_marker_occurs (wcGo_len_two hwr)⟩
  simp only [mysqlToSQLiteParser, hf, Option.map]
  simp only [rollupStep, hwr, if_true, replaceRollup, wrChunks]
  rw [rrGo_eq_joinSep]

/-- Witness for the amended C9 at a concrete rollup-bearing statement. -/
theorem claimC9_amended_witness :
    ∃ chunks : List Str,
      mysqlToSQLiteParser (lit "SELECT a FROM t GROUP BY a WITH ROLLUP") =
        some (joinSep rollupMarker chunks) ∧
      (∀ ch ∈ chunks, occursIn wrLit ch = false) ∧
      2 ≤ chunks.length ∧
      occursIn rollupMarker (joinSep rollupMarker chunks) = true :=
  claimC9_amended (lit "SELECT a FROM t GROUP BY a WITH ROLLUP")
    (lit "SELECT a FROM t GROUP BY a WITH ROLLUP") (by decide) (by decide)

theorem hasPrefix_append_self (p r : Str) : hasPrefixStr p (p ++ r) = true :=
  hasPrefixStr_iff.mpr ⟨r, rfl⟩

/-- `(.*?)stop` scans through a stop-free, line-terminator-free capture. -/
theorem lazyTill_through {stop : Char} {a : Str} (rest : Str)
    (ha : ∀ c ∈ a, c ≠ stop ∧ isLineTerm c = false) :
    lazyTill stop (a ++ stop :: rest) = some (a, rest) := by
  induction a with
  | nil => simp [lazyTill]
  | cons c cs ih =>
    obtain ⟨h1, h2⟩ := ha c (List.mem_cons_self c cs)
    have ih' := ih (fun d hd => ha d (List.mem_cons_of_mem c hd))
    simp only [List.cons_append, lazyTill, List.append_eq]
    rw [if_neg h1, if_neg (by simp [h2])]
    rw [ih']

theorem splitOnCharL_ne_nil (sep : Char) (s : Str) : splitOnCharL sep s ≠ [] := by
  induction s with
  | nil => simp [splitOnCharL]
  | cons c cs ih =>
    simp only [splitOnCharL]
    cases h : splitOnCharL sep cs with
    | nil => simp
    | cons l ls =>
      by_cases hc : c = sep <;> simp [hc]

theorem splitOnCharL_free {sep : Char} {a : Str} (ha : sep ∉ a) :
    splitOnCharL sep a = [a] := by
  induction a with
  | nil => rfl
  | cons c cs ih =>
    have hc : c ≠ sep := fun h => ha (h ▸ List.mem_cons_self c cs)
    have ih' := ih (fun h => ha (List.mem_cons_of_mem c h))
    simp only [splitOnCharL, ih', if_neg hc]

theorem splitOnCharL_append {sep : Char} {a : Str} (r : Str) (ha : sep ∉ a) :
    splitOnCharL sep (a ++ sep :: r) = a :: splitOnCharL sep r := by
  induction a with
  | nil =>
    simp only [List.nil_append, splitOnCharL]
    cases h : splitOnCharL sep r with
    | nil => exact absurd h (splitOnCharL_ne_nil sep r)
    | cons l ls => simp
  | cons c cs ih =>
    have hc : c ≠ sep := fun h => ha (h ▸ List.mem_cons_self c cs)
    have ih' := ih (fun h => ha (List.mem_cons_of_mem c h))
    simp only [List.cons_append, splitOnCharL, List.append_eq]
    rw [ih']
    simp [hc]

/-- `split(',')` undoes `join(',')` on comma-free pieces. -/
theorem splitOnCharL_joinSep {sep : Char} {args : List Str} (hne : args ≠ [])
    (ha : ∀ a ∈ args, sep ∉ a) :
    splitOnCharL sep (joinSep [sep] args) = args := by
  induction args with
  | nil => exact absurd rfl hne
  | cons a as ih =>
    cases as with
    | nil => exact splitOnCharL_free (ha a (List.mem_cons_self a []))
    | cons b bs =>
      have : joinSep [sep] (a :: b :: bs) = a ++ sep :: joinSep [sep] (b :: bs) := by
        simp [joinSep]
      rw [this, splitOnCharL_append _ (ha a (List.mem_cons_self a _)),
        ih (by simp) (fun x hx => ha x (List.mem_cons_of_mem a hx))]

/-- Passing over already-matched characters is the same as restarting after
them (with some previous-character state). -/
theorem runRepl_skip (m : RMatcher) :
    ∀ (u : Str) (j : Nat) (prev : Option Char),
      ∃ pv, runRepl m j prev u = runRepl m 0 pv (u.drop j) := by
  intro u
  induction u with
  | nil =>
    intro j prev
    refine ⟨prev, ?_⟩
    cases j <;> rfl
  | cons c cs ih =>
    intro j prev
    cases j with
    | zero => exact ⟨prev, rfl⟩
    | succ j =>
      obtain ⟨pv, hpv⟩ := ih j (some c)
      exact ⟨pv, hpv⟩

/-- The `CONCAT` rule matched at the head of a constructed call with a
parenthesis-free, line-terminator-free argument text. -/
theorem ruleConcat_at (body tail : Str) (prev : Option Char)
    (hb : ∀ c ∈ body, c ≠ ')' ∧ isLineTerm c = false) :
    ruleConcat prev (lit "CONCAT(" ++ (body ++ (lit ")" ++ tail))) =
      some (7 + body.length + 1, joinSep (lit " || ") (splitOnCharL ',' body)) := by
  have ep : lit ")" = [')'] := by decide
  have el : (lit "CONCAT(").length = 7 := by decide
  unfold ruleConcat
  rw [hasPrefix_append_self]
  simp only [if_true]
  have hdrop : (lit "CONCAT(" ++ (body ++ (lit ")" ++ tail))).drop 7 =
      body ++ ')' :: tail := by
    rw [← el, List.drop_left, ep]
    simp
  rw [hdrop, lazyTill_through tail hb]

/-- `translate` is determined by the rewrite stage on plain-safe results:
if the rewrite stage of `q` produces a plain-safe statement `u`, the rest
of the pipeline (clean-up, dispatch, plain formatting, rollup check) leaves
`u` unchanged. -/
theorem translate_of_mappings (u q : Str) (hu : plainSafe u = true)
    (hq : applyMappings q = u) : mysqlToSQLiteParser q = some u := by
  simp only [plainSafe, Bool.and_eq_true, and_assoc, Bool.not_eq_true',
    decide_eq_true_eq] at hu
  obtain ⟨hqt, hws, hbl, htr, hall, hnl, hct, hgc, hcw, hgb⟩ := hu
  have heng := applyRule_engine_of_quiet u hqt
  have hwr := rollup_absent_of_quiet u hqt
  simp only [mysqlToSQLiteParser, formattedStage, postCleanup, hq, heng,
    hws, hbl, htr, hct, hgc, Bool.false_eq_true, if_false, Option.map]
  simp only [formatSQL, hnl, hcw, hgb, Bool.not_false, Bool.and_self,
    Bool.true_and, if_true, hall, htr]
  simp [rollupStep, hwr]

theorem mem_joinSep {c : Char} {sep : Str} {l : List Str}
    (h : c ∈ joinSep sep l) : (∃ x ∈ l, c ∈ x) ∨ c ∈ sep := by
  induction l with
  | nil => simp [joinSep] at h
  | cons a as ih =>
    cases as with
    | nil => exact Or.inl ⟨a, List.mem_cons_self a [], by simpa [joinSep] using h⟩
    | cons b bs =>
      simp only [joinSep, List.append_assoc, List.mem_append] at h
      rcases h with h | h | h
      · exact Or.inl ⟨a, List.mem_cons_self a _, h⟩
      · exact Or.inr h
      · rcases ih h with ⟨x, hx, hcx⟩ | hs
        · exact Or.inl ⟨x, List.mem_cons_of_mem a hx, hcx⟩
        · exact Or.inr hs

/-- The first rewrite rule applied to a constructed `SELECT CONCAT(...)`
statement with flat (parenthesis-free, line-terminator-free) arguments: the
match spans the whole call and the arguments are re-joined with ` || `. -/
theorem applyRule_ruleConcat_select (args : List Str) (hne : args ≠ [])
    (hargs : ∀ a ∈ args, (',' ∉ a) ∧ (')' ∉ a) ∧
      (∀ c ∈ a, isLineTerm c = false)) :
    applyRule ruleConcat
        (lit "SELECT CONCAT(" ++ joinSep (lit ",") args ++ lit ") FROM t") =
      lit "SELECT " ++ joinSep (lit " || ") args ++ lit " FROM t" := by
  have ecm : lit "," = [','] := by decide
  have hbody : ∀ c ∈ joinSep (lit ",") args, c ≠ ')' ∧ isLineTerm c = false := by
    intro c hc
    rcases mem_joinSep hc with ⟨x, hx, hcx⟩ | hs
    · obtain ⟨_, h2, h3⟩ := hargs x hx
      exact ⟨fun e => h2 (e ▸ hcx), h3 c hcx⟩
    · rw [ecm] at hs
      simp only [List.mem_singleton] at hs
      subst hs
      refine ⟨by decide, by decide⟩
  have step : ∀ (pv : Option Char) (c : Char) (X : Str),
      hasPrefixStr (lit "CONCAT(") (c :: X) = false →
      runRepl ruleConcat 0 pv (c :: X) = c :: runRepl ruleConcat 0 (some c) X := by
    intro pv c X h
    simp [runRepl, ruleConcat, h]
  have stepM : ∀ (pv : Option Char) (c : Char) (X : Str) (k : Nat) (repl : Str),
      ruleConcat pv (c :: X) = some (k, repl) → k ≠ 0 →
      runRepl ruleConcat 0 pv (c :: X) = repl ++ runRepl ruleConcat (k - 1) (some c) X := by
    intro pv c X k repl h hk
    simp [runRepl, h, hk]
  have ec : lit "CONCAT(" = ['C', 'O', 'N', 'C', 'A', 'T', '('] := by decide
  have einp : lit "SELECT CONCAT(" ++ joinSep (lit ",") args ++ lit ") FROM t" =
      ['S', 'E', 'L', 'E', 'C', 'T', ' '] ++
        (lit "CONCAT(" ++ (joinSep (lit ",") args ++ (lit ")" ++ lit " FROM t"))) := by
    have e1 : lit "SELECT CONCAT(" = ['S', 'E', 'L', 'E', 'C', 'T', ' '] ++ lit "CONCAT(" := by
      decide
    have e2 : lit ") FROM t" = lit ")" ++ lit " FROM t" := by decide
    rw [e1, e2]
    simp [List.append_assoc]
  have hm := ruleConcat_at (joinSep (lit ",") args) (lit " FROM t") (some ' ') hbody
  unfold applyRule
  rw [einp]
  simp only [List.cons_append, List.nil_append]
  rw [step _ _ _ (by rw [ec]; simp [hasPrefixStr])]
  rw [step _ _ _ (by rw [ec]; simp [hasPrefixStr])]
  rw [step _ _ _ (by rw [ec]; simp [hasPrefixStr])]
  rw [step _ _ _ (by rw [ec]; simp [hasPrefixStr])]
  rw [step _ _ _ (by rw [ec]; simp [hasPrefixStr])]
  rw [step _ _ _ (by rw [ec]; simp [hasPrefixStr])]
  rw [step _ _ _ (by rw [ec]; simp [hasPrefixStr])]
  rw [ec] at hm
  rw [ec]
  simp only [List.cons_append, List.nil_append] at hm ⊢
  rw [stepM _ _ _ _ _ hm (by omega)]
  have hskip := runRepl_skip ruleConcat
    (['O', 'N', 'C', 'A', 'T', '('] ++ (joinSep (lit ",") args ++ (lit ")" ++ lit " FROM t")))
    (7 + (joinSep (lit ",") args).length + 1 - 1) (some 'C')
  obtain ⟨pv, hpv⟩ := hskip
  simp only [List.cons_append, List.nil_append] at hpv
  rw [hpv]
  have hdrop : (['O', 'N', 'C', 'A', 'T', '('] ++
      (joinSep (lit ",") args ++ (lit ")" ++ lit " FROM t"))).drop
        (7 + (joinSep (lit ",") args).length + 1 - 1) = lit " FROM t" := by
    have er : lit ")" = [')'] := by decide
    rw [er]
    have : ['O', 'N', 'C', 'A', 'T', '('] ++ (joinSep (lit ",") args ++ ([')'] ++ lit " FROM t")) =
        (['O', 'N', 'C', 'A', 'T', '('] ++ joinSep (lit ",") args ++ [')']) ++ lit " FROM t" := by
      simp [List.append_assoc]
    rw [this]
    have hlen : (['O', 'N', 'C', 'A', 'T', '('] ++ joinSep (lit ",") args ++ [')']).length =
        7 + (joinSep (lit ",") args).length + 1 - 1 := by
      simp
      omega
    rw [← hlen, List.drop_left]
  simp only [List.cons_append, List.nil_append] at hdrop
  rw [hdrop]
  have htail : runRepl ruleConcat 0 pv (lit " FROM t") = lit " FROM t" := by
    apply runRepl_eq_self
    intro p t ht
    have hf := hasPrefix_false_of_noOccur ht
      (show occursIn (lit "CONCAT(") (lit " FROM t") = false by decide)
    simp [ruleConcat, hf]
  rw [htail]
  have hsplit : splitOnCharL ',' (joinSep (lit ",") args) = args := by
    rw [ecm]
    exact splitOnCharL_joinSep hne (fun a ha => (hargs a ha).1)
  rw [hsplit]
  have eout : lit "SELECT " ++ joinSep (lit " || ") args ++ lit " FROM t" =
      ['S', 'E', 'L', 'E', 'C', 'T', ' '] ++
        (joinSep (lit " || ") args ++ lit " FROM t") := by
    have e1 : lit "SELECT " = ['S', 'E', 'L', 'E', 'C', 'T', ' '] := by decide
    rw [e1]
    simp [List.append_assoc]
  rw [eout]
  simp [List.cons_append]

/-- C7: `translate ("SELECT CONCAT(a,' ',b) FROM t")` yields
`SELECT a || ' ' || b FROM t` (no `CONCAT` left); and in general, for every
non-empty list of flat arguments (no commas, parentheses or line
terminators inside an argument — the lazy capture `(.*?)\)` cannot cross a
line terminator) whose ` || `-joined form is a plain-safe statement body,
the `CONCAT` rule joins exactly the same arguments in the same order with
the string-concatenation operator. -/
theorem claimC7_concat_rule :
    (mysqlToSQLiteParser (lit "SELECT CONCAT(a,' ',b) FROM t") =
        some (lit "SELECT a || ' ' || b FROM t") ∧
      occursIn (lit "CONCAT") (lit "SELECT a || ' ' || b FROM t") = false) ∧
    ∀ args : List Str, args ≠ [] →
      (∀ a ∈ args, (',' ∉ a) ∧ (')' ∉ a) ∧
        (∀ c ∈ a, isLineTerm c = false)) →
      plainSafe (lit "SELECT " ++ joinSep (lit " || ") args ++ lit " FROM t") = true →
      mysqlToSQLiteParser
          (lit "SELECT CONCAT(" ++ joinSep (lit ",") args ++ lit ") FROM t") =
        some (lit "SELECT " ++ joinSep (lit " || ") args ++ lit " FROM t") := by
  refine ⟨by decide, ?_⟩
  intro args hne hargs hsafe
  apply translate_of_mappings _ _ hsafe
  have h1 := applyRule_ruleConcat_select args hne hargs
  have hq : rulesQuiet (lit "SELECT " ++ joinSep (lit " || ") args ++ lit " FROM t") = true := by
    have := hsafe
    simp only [plainSafe, Bool.and_eq_true, and_assoc] at this
    exact this.1
  have hout := applyMappings_id _ hq
  have hco : applyRule ruleConcat
      (lit "SELECT " ++ joinSep (lit " || ") args ++ lit " FROM t") =
      lit "SELECT " ++ joinSep (lit " || ") args ++ lit " FROM t" := by
    apply applyRule_ruleConcat_id
    have := hq
    simp only [rulesQuiet, noMappedSourceConstructs, Bool.and_eq_true,
      Bool.not_eq_true', and_assoc] at this
    exact this.1
  simp only [applyMappings, functionMappings, List.foldl] at hout ⊢
  rw [h1]
  rw [hco] at hout
  exact hout

/-- Witness for the general part of C7 at the spec's own example arguments. -/
theorem claimC7_witness :
    mysqlToSQLiteParser
        (lit "SELECT CONCAT(" ++ joinSep (lit ",") [lit "a", lit "' '", lit "b"] ++
          lit ") FROM t") =
      some (lit "SELECT " ++ joinSep (lit " || ") [lit "a", lit "' '", lit "b"] ++
        lit " FROM t") :=
  claimC7_concat_rule.2 [lit "a", lit "' '", lit "b"] (by decide) (by decide) (by decide)

theorem word_not_ws {c : Char} (h : isWordChar c = true) : isWsChar c = false := by
  cases hw : isWsChar c with
  | false => rfl
  | true =>
    simp only [isWsChar, Bool.or_eq_true, decide_eq_true_eq, or_assoc] at hw
    rcases hw with rfl | rfl | rfl | rfl | rfl | rfl | rfl | rfl | rfl | rfl |
      rfl | rfl | rfl | rfl | rfl | rfl | rfl | rfl | rfl | rfl |
      rfl | rfl | rfl | rfl | rfl <;>
      exact absurd h (by decide)

theorem colChar_ne {c d : Char} (hc : colChar c = true) (hd : colChar d = false) :
    c ≠ d := by
  rintro rfl
  rw [hc] at hd
  exact absurd hd (by simp)

theorem colChar_not_ws {c : Char} (hc : colChar c = true) (hsp : c ≠ ' ') :
    isWsChar c = false := by
  cases hw : isWsChar c with
  | false => rfl
  | true =>
    simp only [isWsChar, Bool.or_eq_true, decide_eq_true_eq, or_assoc] at hw
    rcases hw with rfl | rfl | rfl | rfl | rfl | rfl | rfl | rfl | rfl | rfl |
      rfl | rfl | rfl | rfl | rfl | rfl | rfl | rfl | rfl | rfl |
      rfl | rfl | rfl | rfl | rfl
    · exact absurd rfl hsp
    all_goals exact absurd hc (by decide)

theorem dropLeadingWs_id {s : Str}
    (h : ∀ c, s.head? = some c → isWsChar c = false) : dropLeadingWs s = s := by
  cases s with
  | nil => rfl
  | cons c cs => simp [dropLeadingWs, h c rfl]

theorem jsTrim_id {s : Str}
    (h1 : ∀ c, s.head? = some c → isWsChar c = false)
    (h2 : ∀ c, s.getLast? = some c → isWsChar c = false) : jsTrim s = s := by
  unfold jsTrim
  rw [dropLeadingWs_id h1]
  rw [dropLeadingWs_id (by simpa [List.head?_reverse] using h2)]
  exact List.reverse_reverse s

theorem takeWhile_append_all {p : Char → Bool} {a : Str} (b : Str)
    (ha : ∀ c ∈ a, p c = true) :
    (a ++ b).takeWhile p = a ++ b.takeWhile p := by
  induction a with
  | nil => simp
  | cons c cs ih =>
    simp only [List.cons_append, List.takeWhile_cons,
      ha c (List.mem_cons_self c cs), if_true]
    rw [ih (fun d hd => ha d (List.mem_cons_of_mem c hd))]

theorem dropWhile_append_all {p : Char → Bool} {a : Str} (b : Str)
    (ha : ∀ c ∈ a, p c = true) :
    (a ++ b).dropWhile p = b.dropWhile p := by
  induction a with
  | nil => simp
  | cons c cs ih =>
    simp only [List.cons_append, List.dropWhile_cons,
      ha c (List.mem_cons_self c cs), if_true]
    exact ih (fun d hd => ha d (List.mem_cons_of_mem c hd))

theorem span_append_all {p : Char → Bool} {a : Str} (b : Str)
    (ha : ∀ c ∈ a, p c = true) :
    (a ++ b).span p = (a ++ (b.span p).1, (b.span p).2) := by
  simp [List.span_eq_take_drop, takeWhile_append_all b ha, dropWhile_append_all b ha]

theorem withCommas_concat (xs : List Str) (x : Str) :
    withCommas (xs ++ [x]) = xs.map (fun c => c ++ lit ",") ++ [x] := by
  induction xs with
  | nil => rfl
  | cons a as ih =>
    cases as with
    | nil => rfl
    | cons b bs =>
      have h1 : (a :: b :: bs) ++ [x] = a :: b :: (bs ++ [x]) := by simp
      rw [h1]
      have h2 : withCommas (a :: b :: (bs ++ [x])) =
          (a ++ lit ",") :: withCommas (b :: (bs ++ [x])) := rfl
      rw [h2]
      have h3 : (b :: bs) ++ [x] = b :: (bs ++ [x]) := by simp
      rw [← h3, ih]
      simp

theorem mem_withCommas {x : Str} {cols : List Str} (h : x ∈ withCommas cols) :
    ∃ c ∈ cols, x = c ∨ x = c ++ lit "," := by
  induction cols with
  | nil => simp [withCommas] at h
  | cons a as ih =>
    cases as with
    | nil =>
      simp only [withCommas, List.mem_singleton] at h
      exact ⟨a, List.mem_cons_self a [], Or.inl h⟩
    | cons b bs =>
      simp only [withCommas, List.mem_cons] at h
      rcases h with rfl | h
      · exact ⟨a, List.mem_cons_self a _, Or.inr rfl⟩
      · obtain ⟨c, hc, hx⟩ := ih (by simpa [withCommas] using h)
        exact ⟨c, List.mem_cons_of_mem a hc, hx⟩

theorem joinSep_cons_ne (sep : Str) (x : Str) {xs : List Str} (h : xs ≠ []) :
    joinSep sep (x :: xs) = x ++ sep ++ joinSep sep xs := by
  cases xs with
  | nil => exact absurd rfl h
  | cons y ys => rfl

theorem joinSep_concat_ne (sep : Str) {xs : List Str} (y : Str) (h : xs ≠ []) :
    joinSep sep (xs ++ [y]) = joinSep sep xs ++ sep ++ y := by
  induction xs with
  | nil => exact absurd rfl h
  | cons a as ih =>
    cases as with
    | nil => simp [joinSep]
    | cons b bs =>
      have ih' := ih (by simp)
      have h1 : (a :: b :: bs) ++ [y] = a :: ((b :: bs) ++ [y]) := by simp
      rw [h1, joinSep_cons_ne sep a (by simp), ih',
        joinSep_cons_ne sep a (show (b :: bs) ≠ [] by simp)]
      simp [List.append_assoc]

theorem splitOnCharL_joinSep_append {sep : Char} {parts : List Str} (r : Str)
    (hne : parts ≠ []) (hfree : ∀ a ∈ parts, sep ∉ a) :
    splitOnCharL sep (joinSep [sep] parts ++ sep :: r) =
      parts ++ splitOnCharL sep r := by
  induction parts with
  | nil => exact absurd rfl hne
  | cons a as ih =>
    cases as with
    | nil =>
      simp only [joinSep, List.singleton_append]
      rw [splitOnCharL_append r (hfree a (List.mem_cons_self a []))]
    | cons b bs =>
      rw [joinSep_cons_ne [sep] a (by simp)]
      have : a ++ [sep] ++ joinSep [sep] (b :: bs) ++ sep :: r =
          a ++ sep :: (joinSep [sep] (b :: bs) ++ sep :: r) := by
        simp [List.append_assoc]
      rw [this, splitOnCharL_append _ (hfree a (List.mem_cons_self a _)),
        ih (by simp) (fun x hx => hfree x (List.mem_cons_of_mem a hx))]
      rfl

theorem idxOfStr_eq_none {l : Str} {L : List Str} (h : l ∉ L) :
    idxOfStr l L = none := by
  induction L with
  | nil => rfl
  | cons x xs ih =>
    have hx : x ≠ l := fun e => h (e ▸ List.mem_cons_self x xs)
    simp only [idxOfStr, if_neg hx]
    rw [ih (fun hm => h (List.mem_cons_of_mem x hm))]
    rfl

theorem idxOfStr_ne_none_of_mem {l : Str} {L : List Str} (h : l ∈ L) :
    idxOfStr l L ≠ none := by
  induction L with
  | nil => simp at h
  | cons p ps ih =>
    by_cases hp : p = l
    · simp [idxOfStr, hp]
    · have hm : l ∈ ps := by
        rcases List.mem_cons.mp h with e | hm
        · exact absurd e.symm hp
        · exact hm
      simp only [idxOfStr, if_neg hp]
      cases hmap : idxOfStr l ps with
      | none => exact absurd hmap (ih hm)
      | some i => simp

theorem jsSliceAfter_mem_front {P : List Str} {l x : Str} (S : List Str)
    (hl : l ∈ P) : x ∈ jsSliceAfter l (P ++ x :: S) := by
  induction P with
  | nil => simp at hl
  | cons p ps ih =>
    by_cases hp : p = l
    · have h1 : jsSliceAfter l ((p :: ps) ++ x :: S) = ps ++ x :: S := by
        simp [jsSliceAfter, List.cons_append, idxOfStr, hp]
      rw [h1]
      simp
    · have hl' : l ∈ ps := by
        rcases List.mem_cons.mp hl with e | hm
        · exact absurd e.symm hp
        · exact hm
      cases hidx : idxOfStr l (ps ++ x :: S) with
      | none =>
        exact absurd hidx (idxOfStr_ne_none_of_mem (List.mem_append_left _ hl'))
      | some i =>
        have h1 : jsSliceAfter l ((p :: ps) ++ x :: S) =
            List.drop (i + 1) (ps ++ x :: S) := by
          simp [jsSliceAfter, List.cons_append, idxOfStr, if_neg hp, hidx]
        have h2 := ih hl'
        simp only [jsSliceAfter, hidx] at h2
        rw [h1]
        exact h2

theorem idxOfStr_append_self {l : Str} {P : List Str} (S : List Str)
    (h : l ∉ P) : idxOfStr l (P ++ l :: S) = some P.length := by
  induction P with
  | nil => simp [idxOfStr]
  | cons p ps ih =>
    have hp : p ≠ l := fun e => h (e ▸ List.mem_cons_self p ps)
    simp only [List.cons_append, idxOfStr, if_neg hp, List.append_eq]
    rw [ih (fun hm => h (List.mem_cons_of_mem p hm))]
    simp

theorem isLastColumn_false_of {L : List Str} {l x : Str}
    (hx : x ∈ jsSliceAfter l L) (hpx : hasPrefixStr (lit ")") x = false) :
    isLastColumn L l = false := by
  simp only [isLastColumn, Bool.not_eq_false', List.any_eq_true]
  exact ⟨x, hx, by simp [hpx]⟩

theorem isLastColumn_true_of {L : List Str} {l : Str}
    (h : ∀ x ∈ jsSliceAfter l L, hasPrefixStr (lit ")") x = true) :
    isLastColumn L l = true := by
  simp only [isLastColumn, Bool.not_eq_true', List.any_eq_false]
  intro x hx
  simp [h x hx]

theorem map_self {f : Str → Str} : ∀ l : List Str, (∀ x ∈ l, f x = x) → l.map f = l := by
  intro l
  induction l with
  | nil => intro _; rfl
  | cons a as ih =>
    intro h
    simp only [List.map_cons, h a (List.mem_cons_self a as),
      ih (fun x hx => h x (List.mem_cons_of_mem a hx))]

theorem getLast?_mem_str : ∀ {l : Str} {c : Char}, l.getLast? = some c → c ∈ l := by
  intro l
  induction l with
  | nil => intro c h; simp at h
  | cons a as ih =>
    intro c h
    cases as with
    | nil => simp_all
    | cons b bs =>
      rw [List.getLast?_cons_cons] at h
      exact List.mem_cons_of_mem a (ih h)

/-- The column-line loop of `formatCreateTable`: each non-final column line
keeps its comma (re-attached after stripping), the final column loses any
comma, and the `);` line is re-emitted indented. -/
theorem fctLoop_cols (L : List Str) :
    ∀ mid : List Str,
      (∀ c ∈ mid,
        hasPrefixStr (lit "CREATE TABLE") (c ++ lit ",") = false ∧
        hasSuffixStr (lit ");") (c ++ lit ",") = false ∧
        (c ++ lit ",") ≠ lit ");" ∧ (c ++ lit ",") ≠ lit ")" ∧
        stripTrailingComma (c ++ lit ",") = c ∧
        isLastColumn L (c ++ lit ",") = false) →
      ∀ last : Str,
        hasPrefixStr (lit "CREATE TABLE") last = false →
        hasSuffixStr (lit ");") last = false →
        last ≠ lit ");" → last ≠ lit ")" →
        stripTrailingComma last = last →
        isLastColumn L last = true →
        fctLoop L true (mid.map (fun c => c ++ lit ",") ++ [last, lit ");"]) =
          some (mid.map (fun c => lit "    " ++ (c ++ lit ",")) ++
            [lit "    " ++ last, lit "    );"]) := by
  intro mid
  induction mid with
  | nil =>
    intro _ last h1 h2 h3 h4 h5 h6
    simp only [List.map_nil, List.nil_append]
    have hstep : fctLoop L true [last, lit ");"] =
        (fctLoop L true [lit ");"]).map (fun r => (lit "    " ++ last) :: r) := by
      simp only [fctLoop, h1, Bool.false_eq_true, if_false, h2, h3, h4,
        decide_False, Bool.or_self, Bool.or_false, if_true, h5, h6,
        List.append_nil]
    rw [hstep]
    have hclose : fctLoop L true [lit ");"] = some [lit "    );"] := by
      have hc1 : hasPrefixStr (lit "CREATE TABLE") (lit ");") = false := by decide
      have hc2 : hasSuffixStr (lit ");") (lit ");") = true := by decide
      simp only [fctLoop, hc1, Bool.false_eq_true, if_false, hc2, Bool.true_or,
        if_true, Option.map]
    rw [hclose]
    rfl
  | cons c cs ih =>
    intro hm last h1 h2 h3 h4 h5 h6
    obtain ⟨hc1, hc2, hc3, hc4, hc5, hc6⟩ := hm c (List.mem_cons_self c cs)
    have ih' := ih (fun d hd => hm d (List.mem_cons_of_mem c hd)) last h1 h2 h3 h4 h5 h6
    simp only [List.map_cons, List.cons_append]
    have hstep : fctLoop L true ((c ++ lit ",") ::
        (cs.map (fun d => d ++ lit ",") ++ [last, lit ");"])) =
        (fctLoop L true (cs.map (fun d => d ++ lit ",") ++ [last, lit ");"])).map
          (fun r => (lit "    " ++ (c ++ lit ",")) :: r) := by
      simp only [fctLoop, hc1, Bool.false_eq_true, if_false, hc2, hc3, hc4,
        decide_False, Bool.or_self, Bool.or_false, if_true, hc5, hc6]
    rw [hstep, ih']
    rfl

/-- `line.match(/CREATE TABLE\s+(\w+)/)` on a well-formed header line
extracts the table name. -/
theorem findCreateTableName_hdr (name : Str) (hn : name ≠ [])
    (hw : ∀ c ∈ name, isWordChar c = true) :
    findCreateTableName (lit "CREATE TABLE " ++ name ++ lit " (") = some name := by
  have e0 : lit "CREATE TABLE " ++ name ++ lit " (" =
      lit "CREATE TABLE" ++ (' ' :: (name ++ lit " (")) := by
    have : lit "CREATE TABLE " = lit "CREATE TABLE" ++ [' '] := by decide
    rw [this]
    simp [List.append_assoc]
  have hpre : hasPrefixStr (lit "CREATE TABLE")
      (lit "CREATE TABLE " ++ name ++ lit " (") = true := by
    rw [e0]; exact hasPrefix_append_self _ _
  have hdrop : (lit "CREATE TABLE " ++ name ++ lit " (").drop 12 =
      ' ' :: (name ++ lit " (") := by
    rw [e0]
    have : (lit "CREATE TABLE").length = 12 := by decide
    rw [← this, List.drop_left]
  obtain ⟨n0, nrest, rfl⟩ : ∃ n0 nrest, name = n0 :: nrest := by
    cases name with
    | nil => exact absurd rfl hn
    | cons a as => exact ⟨a, as, rfl⟩
  have hspan1 : (' ' :: ((n0 :: nrest) ++ lit " (")).span isWsChar =
      ([' '], (n0 :: nrest) ++ lit " (") := by
    have := span_append_all (p := isWsChar) ((n0 :: nrest) ++ lit " (")
      (a := [' ']) (by intro c hc; simp at hc; subst hc; decide)
    simp only [List.singleton_append] at this
    rw [this]
    have hn0 : isWsChar n0 = false :=
      word_not_ws (hw n0 (List.mem_cons_self n0 nrest))
    simp [List.span_eq_take_drop, List.takeWhile_cons, List.dropWhile_cons, hn0]
  have hspan2 : ((n0 :: nrest) ++ lit " (").span isWordChar =
      (n0 :: nrest, lit " (") := by
    have := span_append_all (p := isWordChar) (lit " (") (a := n0 :: nrest) hw
    rw [this]
    have : (lit " (").span isWordChar = ([], lit " (") := by decide
    rw [this]
    simp
  obtain ⟨h0, hrest, e1⟩ : ∃ h0 hrest, lit "CREATE TABLE " ++ (n0 :: nrest) ++ lit " (" =
      h0 :: hrest := by
    refine ⟨'C', lit "REATE TABLE " ++ (n0 :: nrest) ++ lit " (", ?_⟩
    have : lit "CREATE TABLE " = 'C' :: lit "REATE TABLE " := by decide
    rw [this]
    simp
  rw [e1]
  rw [e1] at hpre hdrop
  simp only [findCreateTableName, hpre, if_true, hdrop, hspan1, hspan2]
  simp

/-- Branch facts of the `formatCreateTable` loop for a well-formed column
text: neither line form is mistaken for a header or a terminator, and
comma-stripping behaves as expected. -/
theorem colLine_facts {c : Str} (hc0 : c ≠ []) (hcc : ∀ ch ∈ c, colChar ch = true)
    (hlast : ∀ ch, c.getLast? = some ch → ch ≠ ' ') :
    hasPrefixStr (lit "CREATE TABLE") (c ++ lit ",") = false ∧
    hasSuffixStr (lit ");") (c ++ lit ",") = false ∧
    (c ++ lit ",") ≠ lit ");" ∧ (c ++ lit ",") ≠ lit ")" ∧
    stripTrailingComma (c ++ lit ",") = c ∧
    hasPrefixStr (lit "CREATE TABLE") c = false ∧
    hasSuffixStr (lit ");") c = false ∧ c ≠ lit ");" ∧ c ≠ lit ")" ∧
    stripTrailingComma c = c ∧
    hasPrefixStr (lit ")") c = false := by
  obtain ⟨h, t, rfl⟩ : ∃ h t, c = h :: t := by
    cases c with
    | nil => exact absurd rfl hc0
    | cons a as => exact ⟨a, as, rfl⟩
  have hh : colChar h = true := hcc h (List.mem_cons_self h t)
  have hhC : h ≠ 'C' := colChar_ne hh (by decide)
  have hhP : h ≠ ')' := colChar_ne hh (by decide)
  have ecm : lit "," = [','] := by decide
  have erev : ((h :: t) ++ lit ",").reverse = ',' :: (h :: t).reverse := by
    rw [ecm, List.reverse_append]
    rfl
  obtain ⟨d, ds, hrev⟩ : ∃ d ds, (h :: t).reverse = d :: ds := by
    cases hx : (h :: t).reverse with
    | nil => exact absurd hx (by simp)
    | cons d ds => exact ⟨d, ds, rfl⟩
  have hd : d ∈ h :: t := List.mem_reverse.mp (hrev ▸ List.mem_cons_self d ds)
  have hdc : colChar d = true := hcc d hd
  have hdS : d ≠ ';' := colChar_ne hdc (by decide)
  have hdComma : d ≠ ',' := colChar_ne hdc (by decide)
  have hdlast : (h :: t).getLast? = some d := by
    rw [← List.head?_reverse, hrev]
    rfl
  have hdSp : d ≠ ' ' := hlast d hdlast
  have hdWs : isWsChar d = false := colChar_not_ws hdc hdSp
  have eCT : lit "CREATE TABLE" = 'C' :: lit "REATE TABLE" := by decide
  have ePC : lit ");" = [')', ';'] := by decide
  refine ⟨?_, ?_, ?_, ?_, ?_, ?_, ?_, ?_, ?_, ?_, ?_⟩
  · rw [eCT]
    simp [hasPrefixStr, Ne.symm hhC]
  · unfold hasSuffixStr
    rw [erev, hrev]
    have : (lit ");").reverse = [';', ')'] := by decide
    rw [this]
    simp [hasPrefixStr]
  · intro e
    have : ',' ∈ lit ");" := by
      rw [← e, ecm]
      exact List.mem_append_right _ (List.mem_cons_self ',' [])
    simp [ePC] at this
  · intro e
    have : ',' ∈ lit ")" := by
      rw [← e, ecm]
      exact List.mem_append_right _ (List.mem_cons_self ',' [])
    have e2 : lit ")" = [')'] := by decide
    simp [e2] at this
  · unfold stripTrailingComma
    rw [erev]
    have hcws : isWsChar ',' = false := by decide
    have hdw : (',' :: (h :: t).reverse).dropWhile isWsChar =
        ',' :: (h :: t).reverse := by
      simp [List.dropWhile_cons, hcws]
    rw [hdw]
    simp only [ecm]
    simp [hasPrefixStr]
  · rw [eCT]
    simp [hasPrefixStr, Ne.symm hhC]
  · unfold hasSuffixStr
    rw [hrev]
    have : (lit ");").reverse = [';', ')'] := by decide
    rw [this]
    simp [hasPrefixStr, Ne.symm hdS]
  · intro e
    have : ')' ∈ h :: t := by rw [e, ePC]; simp
    exact absurd (hcc ')' this) (by decide)
  · intro e
    have : ')' ∈ h :: t := by
      rw [e]
      have e2 : lit ")" = [')'] := by decide
      simp [e2]
    exact absurd (hcc ')' this) (by decide)
  · unfold stripTrailingComma
    rw [hrev]
    have hdw : (d :: ds).dropWhile isWsChar = d :: ds := by
      simp [List.dropWhile_cons, hdWs]
    rw [hdw]
    simp only [ecm]
    simp [hasPrefixStr, Ne.symm hdComma]
  · have e2 : lit ")" = [')'] := by decide
    rw [e2]
    simp [hasPrefixStr, Ne.symm hhP]

/-- `formatCreateTable` on a well-formed multi-line table-creation
statement: the header is re-rendered with the extracted name, every column
line is indented four spaces with a trailing comma on all but the last, and
the closing line becomes the indented `);`. -/
theorem formatCreateTable_wellFormed (name : Str) (cols : List Str)
    (hne : cols ≠ []) (hn1 : name ≠ []) (hn2 : ∀ c ∈ name, isWordChar c = true)
    (hcols : ∀ col ∈ cols, col ≠ [] ∧ (∀ ch ∈ col, colChar ch = true) ∧
      (∀ ch, col.head? = some ch → ch ≠ ' ') ∧
      (∀ ch, col.getLast? = some ch → ch ≠ ' ')) :
    formatCreateTable (mkCreateInput name cols) = some (mkCreateOutput name cols) := by
  obtain ⟨mid, last, rfl⟩ : ∃ mid last, cols = mid ++ [last] := by
    rcases List.eq_nil_or_concat cols with rfl | ⟨mid, last, h⟩
    · exact absurd rfl hne
    · exact ⟨mid, last, by rw [h, List.concat_eq_append]⟩
  have hnlName : '\n' ∉ name := fun hm => absurd (hn2 '\n' hm) (by decide)
  have hdrFree : '\n' ∉ (lit "CREATE TABLE " ++ name ++ lit " (") := by
    intro hm
    rcases List.mem_append.mp hm with hm1 | hm2
    · rcases List.mem_append.mp hm1 with hma | hmb
      · exact absurd hma (by decide)
      · exact hnlName hmb
    · exact absurd hm2 (by decide)
  have hWmem : ∀ x ∈ withCommas (mid ++ [last]), '\n' ∉ x := by
    intro x hx hm
    obtain ⟨c, hc, hx2⟩ := mem_withCommas hx
    obtain ⟨-, hcc, -, -⟩ := hcols c hc
    rcases hx2 with rfl | rfl
    · exact absurd (hcc '\n' hm) (by decide)
    · rcases List.mem_append.mp hm with hm1 | hm2
      · exact absurd (hcc '\n' hm1) (by decide)
      · have ecm : lit "," = [','] := by decide
        rw [ecm] at hm2
        simp at hm2
  have hWne : withCommas (mid ++ [last]) ≠ [] := by
    rw [withCommas_concat]
    simp
  have hsplit : splitLines (mkCreateInput name (mid ++ [last])) =
      (lit "CREATE TABLE " ++ name ++ lit " (") ::
        (withCommas (mid ++ [last]) ++ [lit ");"]) := by
    have e : mkCreateInput name (mid ++ [last]) =
        (lit "CREATE TABLE " ++ name ++ lit " (") ++
          '\n' :: (joinSep ['\n'] (withCommas (mid ++ [last])) ++ '\n' :: lit ");") := by
      unfold mkCreateInput
      have e1 : lit " (\n" = lit " (" ++ ['\n'] := by decide
      have e2 : lit "\n);" = '\n' :: lit ");" := by decide
      have e3 : lit "\n" = ['\n'] := by decide
      rw [e1, e2, e3]
      simp [List.append_assoc]
    rw [e]
    show splitOnCharL '\n' _ = _
    rw [splitOnCharL_append _ hdrFree,
      splitOnCharL_joinSep_append _ hWne hWmem]
    have e4 : splitOnCharL '\n' (lit ");") = [lit ");"] := by decide
    rw [e4]
  have ehdrC : lit "CREATE TABLE " ++ name ++ lit " (" =
      'C' :: (lit "REATE TABLE " ++ name ++ lit " (") := by
    have : lit "CREATE TABLE " = 'C' :: lit "REATE TABLE " := by decide
    rw [this]
    simp
  have htrimHdr : jsTrim (lit "CREATE TABLE " ++ name ++ lit " (") =
      lit "CREATE TABLE " ++ name ++ lit " (" := by
    apply jsTrim_id
    · intro c hc
      rw [ehdrC] at hc
      simp only [List.head?_cons, Option.some.injEq] at hc
      subst hc
      decide
    · intro c hc
      have e : lit "CREATE TABLE " ++ name ++ lit " (" =
          (lit "CREATE TABLE " ++ name ++ [' ']) ++ ['('] := by
        have : lit " (" = [' '] ++ ['('] := by decide
        rw [this]
        simp [List.append_assoc]
      rw [e, List.getLast?_concat] at hc
      simp only [Option.some.injEq] at hc
      subst hc
      decide
  have htrimW : ∀ x ∈ withCommas (mid ++ [last]), jsTrim x = x := by
    intro x hx
    obtain ⟨c, hc, hx2⟩ := mem_withCommas hx
    obtain ⟨hc0, hcc, hhd, hlst⟩ := hcols c hc
    obtain ⟨h0, t0, rfl⟩ : ∃ h0 t0, c = h0 :: t0 := by
      cases c with
      | nil => exact absurd rfl hc0
      | cons a as => exact ⟨a, as, rfl⟩
    have hh0 : isWsChar h0 = false :=
      colChar_not_ws (hcc h0 (List.mem_cons_self h0 t0)) (hhd h0 rfl)
    rcases hx2 with rfl | rfl
    · apply jsTrim_id
      · intro ch hch
        simp only [List.head?_cons, Option.some.injEq] at hch
        subst hch
        exact hh0
      · intro ch hch
        have := getLast?_mem_str hch
        exact colChar_not_ws (hcc ch this) (hlst ch hch)
    · apply jsTrim_id
      · intro ch hch
        simp only [List.cons_append, List.head?_cons, Option.some.injEq] at hch
        subst hch
        exact hh0
      · intro ch hch
        have ecm : lit "," = [','] := by decide
        rw [ecm, List.getLast?_concat] at hch
        simp only [Option.some.injEq] at hch
        subst hch
        decide
  have hmap : (((lit "CREATE TABLE " ++ name ++ lit " (") ::
      (withCommas (mid ++ [last]) ++ [lit ");"])).map jsTrim) =
      (lit "CREATE TABLE " ++ name ++ lit " (") ::
        (withCommas (mid ++ [last]) ++ [lit ");"]) := by
    apply map_self
    intro x hx
    rcases List.mem_cons.mp hx with rfl | hx2
    · exact htrimHdr
    · rcases List.mem_append.mp hx2 with hxw | hxc
      · exact htrimW x hxw
      · simp only [List.mem_singleton] at hxc
        subst hxc
        decide
  have hfilter : (((lit "CREATE TABLE " ++ name ++ lit " (") ::
      (withCommas (mid ++ [last]) ++ [lit ");"])).filter (fun l => l ≠ [])) =
      (lit "CREATE TABLE " ++ name ++ lit " (") ::
        (withCommas (mid ++ [last]) ++ [lit ");"]) := by
    apply List.filter_eq_self.mpr
    intro x hx
    rcases List.mem_cons.mp hx with rfl | hx2
    · rw [ehdrC]; simp
    · rcases List.mem_append.mp hx2 with hxw | hxc
      · obtain ⟨c, hc, hx3⟩ := mem_withCommas hxw
        obtain ⟨hc0, -, -, -⟩ := hcols c hc
        rcases hx3 with rfl | rfl
        · simpa using hc0
        · simp [hc0]
      · simp only [List.mem_singleton] at hxc
        subst hxc
        decide
  -- the line list seen by the loop
  have hL : withCommas (mid ++ [last]) ++ [lit ");"] =
      mid.map (fun c => c ++ lit ",") ++ [last, lit ");"] := by
    rw [withCommas_concat]
    simp
  -- facts for the final column
  obtain ⟨hl0, hlcc, hlhd, hllst⟩ := hcols last (List.mem_append_right _ (List.mem_cons_self last []))
  obtain ⟨hlf1, hlf2, hlf3, hlf4, hlf5, hlf6, hlf7, hlf8, hlf9, hlf10, hlf11⟩ :=
    colLine_facts hl0 hlcc hllst
  have hlastNotP : last ∉ (lit "CREATE TABLE " ++ name ++ lit " (") ::
      mid.map (fun c => c ++ lit ",") := by
    intro hm
    rcases List.mem_cons.mp hm with e | hm2
    · have : 'C' ∈ last := by
        rw [e, ehdrC]
        exact List.mem_cons_self _ _
      exact absurd (hlcc 'C' this) (by decide)
    · obtain ⟨d, -, hd2⟩ := List.mem_map.mp hm2
      have : ',' ∈ last := by
        rw [← hd2]
        have ecm : lit "," = [','] := by decide
        rw [ecm]
        exact List.mem_append_right _ (List.mem_cons_self ',' [])
      exact absurd (hlcc ',' this) (by decide)
  have hLshape : (lit "CREATE TABLE " ++ name ++ lit " (") ::
      (mid.map (fun c => c ++ lit ",") ++ [last, lit ");"]) =
      ((lit "CREATE TABLE " ++ name ++ lit " (") :: mid.map (fun c => c ++ lit ",")) ++
        last :: [lit ");"] := by
    simp
  have hlastIsLast : isLastColumn
      ((lit "CREATE TABLE " ++ name ++ lit " (") ::
        (mid.map (fun c => c ++ lit ",") ++ [last, lit ");"])) last = true := by
    apply isLastColumn_true_of
    rw [hLshape]
    have hidx := idxOfStr_append_self (P := (lit "CREATE TABLE " ++ name ++ lit " (") ::
      mid.map (fun c => c ++ lit ",")) [lit ");"] hlastNotP
    simp only [jsSliceAfter, hidx]
    have hdrop : (((lit "CREATE TABLE " ++ name ++ lit " (") ::
        mid.map (fun c => c ++ lit ",")) ++ last :: [lit ");"]).drop
        (((lit "CREATE TABLE " ++ name ++ lit " (") ::
          mid.map (fun c => c ++ lit ",")).length + 1) = [lit ");"] := by
      have e : ((lit "CREATE TABLE " ++ name ++ lit " (") ::
          mid.map (fun c => c ++ lit ",")) ++ last :: [lit ");"] =
          (((lit "CREATE TABLE " ++ name ++ lit " (") ::
            mid.map (fun c => c ++ lit ",")) ++ [last]) ++ [lit ");"] := by
        simp
      rw [e]
      have hlen : (((lit "CREATE TABLE " ++ name ++ lit " (") ::
          mid.map (fun c => c ++ lit ",")) ++ [last]).length =
          ((lit "CREATE TABLE " ++ name ++ lit " (") ::
            mid.map (fun c => c ++ lit ",")).length + 1 := by
        simp
      rw [← hlen, List.drop_left]
    rw [hdrop]
    intro x hx
    simp only [List.mem_singleton] at hx
    subst hx
    decide
  have hmidFacts : ∀ c ∈ mid,
      hasPrefixStr (lit "CREATE TABLE") (c ++ lit ",") = false ∧
      hasSuffixStr (lit ");") (c ++ lit ",") = false ∧
      (c ++ lit ",") ≠ lit ");" ∧ (c ++ lit ",") ≠ lit ")" ∧
      stripTrailingComma (c ++ lit ",") = c ∧
      isLastColumn ((lit "CREATE TABLE " ++ name ++ lit " (") ::
        (mid.map (fun d => d ++ lit ",") ++ [last, lit ");"])) (c ++ lit ",") = false := by
    intro c hc
    obtain ⟨hc0, hcc, hchd, hclst⟩ := hcols c (List.mem_append_left _ hc)
    obtain ⟨hf1, hf2, hf3, hf4, hf5, -, -, -, -, -, -⟩ := colLine_facts hc0 hcc hclst
    refine ⟨hf1, hf2, hf3, hf4, hf5, ?_⟩
    have hmem : (c ++ lit ",") ∈ (lit "CREATE TABLE " ++ name ++ lit " (") ::
        mid.map (fun d => d ++ lit ",") :=
      List.mem_cons_of_mem _ (List.mem_map.mpr ⟨c, hc, rfl⟩)
    have hsl := jsSliceAfter_mem_front (P := (lit "CREATE TABLE " ++ name ++ lit " (") ::
      mid.map (fun d => d ++ lit ",")) (l := c ++ lit ",") (x := last) [lit ");"] hmem
    rw [← hLshape] at hsl
    exact isLastColumn_false_of hsl hlf11
  have hloop := fctLoop_cols
    ((lit "CREATE TABLE " ++ name ++ lit " (") ::
      (mid.map (fun c => c ++ lit ",") ++ [last, lit ");"]))
    mid hmidFacts last hlf6 hlf7 hlf8 hlf9 hlf10 hlastIsLast
  have hpreHdr : hasPrefixStr (lit "CREATE TABLE")
      (lit "CREATE TABLE " ++ name ++ lit " (") = true := by
    have e : lit "CREATE TABLE " ++ name ++ lit " (" =
        lit "CREATE TABLE" ++ (' ' :: (name ++ lit " (")) := by
      have : lit "CREATE TABLE " = lit "CREATE TABLE" ++ [' '] := by decide
      rw [this]
      simp [List.append_assoc]
    rw [e]
    exact hasPrefix_append_self _ _
  -- assemble the formatter run
  unfold formatCreateTable
  rw [hsplit, hmap, hfilter, hL]
  have hfct : fctLoop
      ((lit "CREATE TABLE " ++ name ++ lit " (") ::
        (mid.map (fun c => c ++ lit ",") ++ [last, lit ");"])) false
      ((lit "CREATE TABLE " ++ name ++ lit " (") ::
        (mid.map (fun c => c ++ lit ",") ++ [last, lit ");"])) =
      some ((lit "CREATE TABLE " ++ name ++ lit " (") ::
        (mid.map (fun c => lit "    " ++ (c ++ lit ",")) ++
          [lit "    " ++ last, lit "    );"])) := by
    simp only [fctLoop, hpreHdr, if_true, findCreateTableName_hdr name hn1 hn2, hloop,
      Option.map]
  show Option.map (joinSep (lit "\n"))
      (fctLoop ((lit "CREATE TABLE " ++ name ++ lit " (") ::
        (mid.map (fun c => c ++ lit ",") ++ [last, lit ");"])) false
        ((lit "CREATE TABLE " ++ name ++ lit " (") ::
          (mid.map (fun c => c ++ lit ",") ++ [last, lit ");"]))) =
      some (mkCreateOutput name (mid ++ [last]))
  rw [hfct]
  simp only [Option.map]
  congr 1
  rw [joinSep_cons_ne _ _ (by simp)]
  have hM : mid.map (fun c => lit "    " ++ (c ++ lit ",")) ++
      [lit "    " ++ last, lit "    );"] =
      (mid.map (fun c => lit "    " ++ (c ++ lit ",")) ++ [lit "    " ++ last]) ++
        [lit "    );"] := by
    simp
  rw [hM, joinSep_concat_ne _ _ (by simp)]
  unfold mkCreateOutput
  rw [withCommas_concat, List.map_append, List.map_map]
  have e5 : lit " (\n" = lit " (" ++ lit "\n" := by decide
  have e6 : lit "\n    );" = lit "\n" ++ lit "    );" := by decide
  rw [e5, e6]
  simp only [List.append_assoc, Function.comp, List.cons_append, List.nil_append]
  rfl

/-- C8, amended: restricted to table-creation statements whose header spells
`CREATE TABLE` in upper case (the code's `line.startsWith('CREATE TABLE')`
check is case-sensitive, refuting the claim as stated for lower-case
headers), the claimed reformatting holds: for a well-formed multi-line
statement — upper-case header with a word-character table name, one
trigger-free column per line with a trailing comma on all but the last, a
closing `);` line, whitespace already normal — the translator returns the
statement with the header kept, every column line indented four spaces
(commas preserved on all but the last), and the closing line rendered as
the indented `);`. -/
theorem claimC8_amended (name : Str) (cols : List Str)
    (hne : cols ≠ []) (hn1 : name ≠ []) (hn2 : ∀ c ∈ name, isWordChar c = true)
    (hcols : ∀ col ∈ cols, col ≠ [] ∧ (∀ ch ∈ col, colChar ch = true) ∧
      col.head? ≠ some ' ' ∧ col.getLast? ≠ some ' ')
    (hq : rulesQuiet (mkCreateInput name cols) = true)
    (hws : collapseWS (mkCreateInput name cols) = mkCreateInput name cols)
    (hbl : collapseBlank (mkCreateInput name cols) = mkCreateInput name cols)
    (htr : jsTrim (mkCreateInput name cols) = mkCreateInput name cols)
    (hwo : occursIn wrLit (mkCreateOutput name cols) = false) :
    mysqlToSQLiteParser (mkCreateInput name cols) =
      some (mkCreateOutput name cols) := by
  have hcols' : ∀ col ∈ cols, col ≠ [] ∧ (∀ ch ∈ col, colChar ch = true) ∧
      (∀ ch, col.head? = some ch → ch ≠ ' ') ∧
      (∀ ch, col.getLast? = some ch → ch ≠ ' ') := by
    intro col hc
    obtain ⟨h1, h2, h3, h4⟩ := hcols col hc
    exact ⟨h1, h2, fun ch hch he => h3 (he ▸ hch), fun ch hch he => h4 (he ▸ hch)⟩
  have hmaps := applyMappings_id _ hq
  have heng := applyRule_engine_of_quiet _ hq
  have hdisp : hasPrefixStr (lit "create table")
      (lowerStr (mkCreateInput name cols)) = true := by
    unfold mkCreateInput
    simp only [lowerStr, List.map_append]
    have e : (lit "CREATE TABLE ").map lowerChar = lit "create table" ++ [' '] := by
      decide
    rw [e]
    simp only [List.append_assoc, List.cons_append, List.nil_append]
    exact hasPrefix_append_self _ _
  have hfmt := formatCreateTable_wellFormed name cols hne hn1 hn2 hcols'
  simp only [mysqlToSQLiteParser, formattedStage, postCleanup, hmaps, heng,
    hws, hbl, htr, hdisp, if_true, hfmt, Option.map_some]
  simp [rollupStep, hwo]

/-- Witness for the amended C8 at a concrete two-column statement. -/
theorem claimC8_amended_witness :
    mysqlToSQLiteParser
        (mkCreateInput (lit "users") [lit "id integer", lit "name text"]) =
      some (mkCreateOutput (lit "users") [lit "id integer", lit "name text"]) :=
  claimC8_amended (lit "users") [lit "id integer", lit "name text"]
    (by decide) (by decide) (by decide) (by decide)
    (by decide) (by decide) (by decide) (by decide) (by decide)

/-- C9, counterexample: the spec claims every statement containing
`WITH ROLLUP` translates to output containing the not-supported marker.
For a one-line table-creation statement the formatter drops everything
after the header, the final `WITH ROLLUP` check no longer fires, and the
output contains neither the construct nor any marker. -/
theorem claimC9_counterexample :
    mysqlToSQLiteParser (lit "CREATE TABLE t (x WITH ROLLUP);") =
      some (lit "CREATE TABLE t (") ∧
    occursIn rollupMarker (lit "CREATE TABLE t (") = false ∧
    occursIn wrLit (lit "CREATE TABLE t (x WITH ROLLUP);") = true := by decide
